import Mathlib

/-!
Verification of the tic-tac-toe decision engine (`src/systems/AdvancedAI.ts`)
and the tournament orchestrator (the unnamed tournament-system source file).

The TypeScript code is shallowly embedded:
* boards are total functions `Nat → Nat → Option Player` (the engine only
  ever touches indices 0..2);
* JavaScript numbers used as scores are modelled as `ℤ`, and the score
  lattice with `-Infinity` / `+Infinity` sentinels as
  `WithBot (WithTop ℤ)`;
* the recursion of `minimax` / `minimaxAlphaBeta` (which terminates
  because each ply fills a cell) is made structural with a fuel
  parameter; fuel `9` — an upper bound on the number of empty cells —
  is always sufficient, and the exported `minimax` / `minimaxAlphaBeta`
  fix the fuel at `9`;
* `Math.random()`-driven choices take an injected natural-number oracle
  (the JS expression `Math.floor(Math.random()*len)` is an arbitrary
  index below `len`; the oracle draw is reduced `% len`);
* `throw new Error(msg)` becomes `Except.error msg`.
-/

namespace TicTacToe


/-! ## Definitions -/

inductive Player
  | X
  | O
deriving DecidableEq, Repr

def Player.other : Player → Player
  | .X => .O
  | .O => .X

/-- A cell of the board: `null` (empty) or a player mark. -/
abbrev Cell := Option Player

/-- `BoardState` from the source. Only indices 0..2 are ever consulted. -/
def Board := Nat → Nat → Cell

/-- `Position` from the source: row and column, JS numbers modelled as `Nat`. -/
structure Pos where
  row : Nat
  col : Nat
deriving DecidableEq, Repr

instance : Inhabited Pos := ⟨⟨0, 0⟩⟩

/-- Score type: JS numbers together with the `-Infinity` (`⊥`) and
`+Infinity` (`⊤`) sentinels used by the search. -/
abbrev E := WithBot (WithTop ℤ)

/-- Embedding of a finite integer score into `E`. -/
def toE (n : ℤ) : E := ((n : WithTop ℤ) : E)

/-- The nine positions in row-major order, the iteration order of the
`getAvailableMoves` double loop. -/
def allPositions : List Pos :=
  [⟨0, 0⟩, ⟨0, 1⟩, ⟨0, 2⟩, ⟨1, 0⟩, ⟨1, 1⟩, ⟨1, 2⟩, ⟨2, 0⟩, ⟨2, 1⟩, ⟨2, 2⟩]

/-- `getAvailableMoves`: all empty cells in row-major order. -/
def getAvailableMoves (b : Board) : List Pos :=
  allPositions.filter (fun q => b q.row q.col == none)

/-- `makeMove`: copy the board and set one cell. -/
def makeMove (b : Board) (pos : Pos) (q : Player) : Board :=
  fun r c => if r = pos.row ∧ c = pos.col then some q else b r c

/-- `checkWin`: the three rows, three columns and two diagonals, in the
order the source checks them. -/
def checkWin (b : Board) (q : Player) : Bool :=
  (b 0 0 == some q && b 0 1 == some q && b 0 2 == some q) ||
  (b 1 0 == some q && b 1 1 == some q && b 1 2 == some q) ||
  (b 2 0 == some q && b 2 1 == some q && b 2 2 == some q) ||
  (b 0 0 == some q && b 1 0 == some q && b 2 0 == some q) ||
  (b 0 1 == some q && b 1 1 == some q && b 2 1 == some q) ||
  (b 0 2 == some q && b 1 2 == some q && b 2 2 == some q) ||
  (b 0 0 == some q && b 1 1 == some q && b 2 2 == some q) ||
  (b 0 2 == some q && b 1 1 == some q && b 2 0 == some q)

/-- `getWinner`: X is checked before O. -/
def getWinner (b : Board) : Option Player :=
  if checkWin b .X then some .X
  else if checkWin b .O then some .O
  else none

/-- `board.flat()`: the nine cells in row-major order. -/
def boardFlat (b : Board) : List Cell :=
  allPositions.map (fun q => b q.row q.col)

/-- `isBoardFull`. -/
def isBoardFull (b : Board) : Bool :=
  (boardFlat b).all (fun c => c != none)

/-- `boardToPattern`: the fingerprint string, `_` for an empty cell. -/
def boardToPattern (b : Board) : String :=
  String.join ((boardFlat b).map (fun c =>
    match c with
    | some .X => "X"
    | some .O => "O"
    | none => "_"))

/-- `minimax`, with an added fuel argument making the recursion
structural; fuel is only consumed when recursing into child positions. -/
def minimaxFuel (p : Player) (fuel : Nat) (b : Board) (depth : Nat) (isMax : Bool) : E :=
  if getWinner b = some p then toE (10 - (depth : ℤ))
  else if getWinner b = some p.other then toE ((depth : ℤ) - 10)
  else if isBoardFull b then toE 0
  else
    match fuel with
    | 0 => toE 0
    | fuel' + 1 =>
      if isMax then
        (getAvailableMoves b).foldl
          (fun best mv => max (minimaxFuel p fuel' (makeMove b mv p) (depth + 1) false) best) ⊥
      else
        (getAvailableMoves b).foldl
          (fun best mv => min (minimaxFuel p fuel' (makeMove b mv p.other) (depth + 1) true) best) ⊤

/-- The `maximizing` loop of `minimaxAlphaBeta`: updates `maxEval` and
`alpha` and breaks on `beta <= alpha`. -/
def abMaxLoop (eval : Pos → E → E → E) (beta : E) : List Pos → E → E → E
  | [], _alpha, maxEval => maxEval
  | mv :: rest, alpha, maxEval =>
    let ev := eval mv alpha beta
    let maxEval' := max maxEval ev
    let alpha' := max alpha ev
    if beta ≤ alpha' then maxEval'
    else abMaxLoop eval beta rest alpha' maxEval'

/-- The minimizing loop of `minimaxAlphaBeta`: updates `minEval` and
`beta` and breaks on `beta <= alpha`. -/
def abMinLoop (eval : Pos → E → E → E) (alpha : E) : List Pos → E → E → E
  | [], _beta, minEval => minEval
  | mv :: rest, beta, minEval =>
    let ev := eval mv alpha beta
    let minEval' := min minEval ev
    let beta' := min beta ev
    if beta' ≤ alpha then minEval'
    else abMinLoop eval alpha rest beta' minEval'

/-- `minimaxAlphaBeta`, with the same fuel treatment as `minimaxFuel`. -/
def minimaxAlphaBetaFuel (p : Player) (fuel : Nat) (b : Board) (depth : Nat)
    (alpha beta : E) (isMax : Bool) : E :=
  if getWinner b = some p then toE (10 - (depth : ℤ))
  else if getWinner b = some p.other then toE ((depth : ℤ) - 10)
  else if isBoardFull b then toE 0
  else
    match fuel with
    | 0 => toE 0
    | fuel' + 1 =>
      if isMax then
        abMaxLoop
          (fun mv a bt => minimaxAlphaBetaFuel p fuel' (makeMove b mv p) (depth + 1) a bt false)
          beta (getAvailableMoves b) alpha ⊥
      else
        abMinLoop
          (fun mv a bt => minimaxAlphaBetaFuel p fuel' (makeMove b mv p.other) (depth + 1) a bt true)
          alpha (getAvailableMoves b) beta ⊤

/-- `minimax` of the source: a board has at most 9 empty cells, so fuel 9
always suffices. -/
def minimax (p : Player) (b : Board) (depth : Nat) (isMax : Bool) : E :=
  minimaxFuel p 9 b depth isMax

/-- `minimaxAlphaBeta` of the source. -/
def minimaxAlphaBeta (p : Player) (b : Board) (depth : Nat) (alpha beta : E)
    (isMax : Bool) : E :=
  minimaxAlphaBetaFuel p 9 b depth alpha beta isMax

/-- `AIMove`: position plus diagnostic metadata. -/
structure AIMove where
  position : Pos
  score : E
  confidence : ℚ
  strategy : String
deriving DecidableEq, Repr

/-- The pattern memory: fingerprint string to reinforcement count
(`Map.get` returning `undefined` is `none`). -/
abbrev PatternMemory := String → Option ℤ

/-- An index pick driven by one oracle draw; in the source this is
`list[Math.floor(Math.random() * list.length)]`, an arbitrary valid index. -/
def pick (r : Nat) (l : List Pos) : Pos :=
  l.getD (r % l.length) ⟨0, 0⟩

/-- `getPositionalScore`: center 3, corner 2, edge 1. -/
def getPositionalScore (position : Pos) : ℤ :=
  if position.row = 1 ∧ position.col = 1 then 3
  else if (position.row = 0 ∨ position.row = 2) ∧ (position.col = 0 ∨ position.col = 2) then 2
  else 1

/-- `getRandomMove` (Easy tier): random among legal moves preferring
center and corners; `r` is the oracle draw. -/
def getRandomMove (r : Nat) (availableMoves : List Pos) : AIMove :=
  let centerCornerMoves := availableMoves.filter (fun mv =>
    (mv.row == 1 && mv.col == 1) ||
    ((mv.row == 0 || mv.row == 2) && (mv.col == 0 || mv.col == 2)))
  let preferredMoves := if centerCornerMoves.length > 0 then centerCornerMoves else availableMoves
  { position := pick r preferredMoves
    score := toE 0
    confidence := 3 / 10
    strategy := "Random with preference" }

/-- `getMediumMove`: win, block, center, random corner, random fallback;
`r1` is the corner draw, `r2` the fallback draw. -/
def getMediumMove (p : Player) (r1 r2 : Nat) (b : Board) (availableMoves : List Pos) : AIMove :=
  match availableMoves.find? (fun mv => checkWin (makeMove b mv p) p) with
  | some mv =>
    { position := mv, score := toE 100, confidence := 1, strategy := "Winning move" }
  | none =>
  match availableMoves.find? (fun mv => checkWin (makeMove b mv p.other) p.other) with
  | some mv =>
    { position := mv, score := toE 50, confidence := 9 / 10, strategy := "Blocking move" }
  | none =>
  if b 1 1 = none then
    { position := ⟨1, 1⟩, score := toE 10, confidence := 6 / 10, strategy := "Center preference" }
  else
    let corners := [(⟨0, 0⟩ : Pos), ⟨0, 2⟩, ⟨2, 0⟩, ⟨2, 2⟩].filter
      (fun q => b q.row q.col == none)
    if corners.length > 0 then
      { position := pick r1 corners, score := toE 5, confidence := 1 / 2
        strategy := "Corner preference" }
    else getRandomMove r2 availableMoves

/-- The best-move loop shared by the Hard, Expert and Impossible tiers:
first-seen move wins ties (strict `>` comparison). -/
def selectLoop (score : Pos → E) : List Pos → Pos → E → Pos × E
  | [], bestMove, bestScore => (bestMove, bestScore)
  | mv :: rest, bestMove, bestScore =>
    let s := score mv
    if bestScore < s then selectLoop score rest mv s
    else selectLoop score rest bestMove bestScore

/-- `getHardMove`: full minimax over every legal move. -/
def getHardMove (p : Player) (b : Board) (availableMoves : List Pos) : AIMove :=
  let res := selectLoop (fun mv => minimax p (makeMove b mv p) 0 false)
    availableMoves availableMoves.headI ⊥
  { position := res.1, score := res.2, confidence := 4 / 5, strategy := "Minimax" }

/-- `getExpertMove`: alpha-beta over every legal move. (The source also
updates the pattern memory afterwards; see `updatePatternMemory`.) -/
def getExpertMove (p : Player) (b : Board) (availableMoves : List Pos) : AIMove :=
  let res := selectLoop (fun mv => minimaxAlphaBeta p (makeMove b mv p) 0 ⊥ ⊤ false)
    availableMoves availableMoves.headI ⊥
  { position := res.1, score := res.2, confidence := 19 / 20, strategy := "Alpha-Beta Pruning" }

/-- `getPatternMove`: the Impossible-tier pattern-memory short-circuit.
The JS guard `patternScore && patternScore > 5` is falsy for a missing
entry and for the count 0. The returned move is `availableMoves[0]`
("simplified for this implementation" in the source). -/
def getPatternMove (mem : PatternMemory) (b : Board) : Option AIMove :=
  let boardPattern := boardToPattern b
  match mem boardPattern with
  | none => none
  | some patternScore =>
    if patternScore ≠ 0 ∧ patternScore > 5 then
      let availableMoves := getAvailableMoves b
      let bestMove := availableMoves.headI
      some { position := bestMove, score := toE patternScore, confidence := 9 / 10
             strategy := "Pattern Recognition" }
    else none

/-- `getImpossibleMove`: pattern-memory short-circuit, otherwise
alpha-beta plus the positional bonus added before comparison. -/
def getImpossibleMove (p : Player) (mem : PatternMemory) (b : Board)
    (availableMoves : List Pos) : AIMove :=
  match getPatternMove mem b with
  | some patternMove => patternMove
  | none =>
    let res := selectLoop
      (fun mv => minimaxAlphaBeta p (makeMove b mv p) 0 ⊥ ⊤ false + toE (getPositionalScore mv))
      availableMoves availableMoves.headI ⊥
    { position := res.1, score := res.2, confidence := 1, strategy := "Perfect Play + Patterns" }

/-- `updatePatternMemory`: increment the reinforcement count of the
pre-move fingerprint. -/
def updatePatternMemory (mem : PatternMemory) (b : Board) : PatternMemory :=
  let pattern := boardToPattern b
  let currentScore := (mem pattern).getD 0
  fun s => if s = pattern then some (currentScore + 1) else mem s

inductive Difficulty
  | Easy
  | Medium
  | Hard
  | Expert
  | Impossible
deriving DecidableEq, Repr

/-- `getBestMove`: guard against an empty move list, then dispatch on
difficulty. `r1`, `r2` are the oracle draws for the random tiers. -/
def getBestMove (p : Player) (difficulty : Difficulty) (mem : PatternMemory)
    (r1 r2 : Nat) (b : Board) : Except String AIMove :=
  let availableMoves := getAvailableMoves b
  if availableMoves.length = 0 then .error "No available moves"
  else
    match difficulty with
    | .Easy => .ok (getRandomMove r1 availableMoves)
    | .Medium => .ok (getMediumMove p r1 r2 b availableMoves)
    | .Hard => .ok (getHardMove p b availableMoves)
    | .Expert => .ok (getExpertMove p b availableMoves)
    | .Impossible => .ok (getImpossibleMove p mem b availableMoves)

/-! ### Fold lemmas for the max / min accumulation loops -/

/-- The maximizing accumulation `best = max (val mv) best` as a fold. -/
def foldMax (val : Pos → E) (ms : List Pos) (a : E) : E :=
  ms.foldl (fun best mv => max (val mv) best) a

/-- The minimizing accumulation `best = min (val mv) best` as a fold. -/
def foldMin (val : Pos → E) (ms : List Pos) (a : E) : E :=
  ms.foldl (fun best mv => min (val mv) best) a

/-! ### Alpha-beta correctness (fail-soft Knuth-Moore invariant)

`KM3 g v lo hi` captures the fail-soft guarantee of an alpha-beta value
`g` against the true minimax value `v` for the window `(lo, hi)`:
failing low it upper-bounds `v`, failing high it lower-bounds `v`, and
strictly inside the window it equals `v`. -/

def KM3 (g v lo hi : E) : Prop :=
  (g ≤ lo → v ≤ g) ∧ (hi ≤ g → g ≤ v) ∧ (lo < g → g < hi → g = v)

/-! ### The returned position is always a legal cell -/

/-- The safety property of C10 for a position on a board. -/
def LegalFor (b : Board) (q : Pos) : Prop :=
  q.row ≤ 2 ∧ q.col ≤ 2 ∧ b q.row q.col = none

instance {ε α : Type} [DecidableEq ε] [DecidableEq α] : DecidableEq (Except ε α) := by
  intro x y
  cases x with
  | error a =>
    cases y with
    | error b =>
      by_cases h : a = b
      · exact isTrue (by rw [h])
      · exact isFalse (by intro hc; injection hc; contradiction)
    | ok b => exact isFalse (by intro hc; exact Except.noConfusion hc)
  | ok a =>
    cases y with
    | error b => exact isFalse (by intro hc; exact Except.noConfusion hc)
    | ok b =>
      by_cases h : a = b
      · exact isTrue (by rw [h])
      · exact isFalse (by intro hc; injection hc; contradiction)

/-! ### Concrete boards used by witnesses and counterexamples -/

/-- Board `[[O,O,X],[_,_,_],[_,_,X]]`, X to move: X wins immediately at
the edge (1,2) (column 2); the empty center (1,1) is a win-in-three. -/
def boardC3 : Board := fun r c =>
  match r, c with
  | 0, 0 => some .O
  | 0, 1 => some .O
  | 0, 2 => some .X
  | 2, 2 => some .X
  | _, _ => none

/-- Board `[[X,O,X],[X,O,O],[_,_,_]]`, X to move. -/
def boardW : Board := fun r c =>
  match r, c with
  | 0, 0 => some .X
  | 0, 1 => some .O
  | 0, 2 => some .X
  | 1, 0 => some .X
  | 1, 1 => some .O
  | 1, 2 => some .O
  | _, _ => none

/-- Board `[[X,O,_],[_,_,_],[_,_,_]]`, fingerprint `XO_______`. -/
def boardP : Board := fun r c =>
  match r, c with
  | 0, 0 => some .X
  | 0, 1 => some .O
  | _, _ => none

/-- A pattern memory holding only the reinforcement count 6 for the
fingerprint of `boardP`. -/
def memP : PatternMemory := fun s => if s = "XO_______" then some 6 else none

/-- The empty pattern memory of a fresh engine instance. -/
def emptyMem : PatternMemory := fun _ => none

/-!
### Tournament orchestrator

Embedding of the tournament-system source file. JavaScript objects live
on explicit heaps so that reference sharing is preserved:
* `statsH` holds the mutable `stats` objects; a player object refers to
  its stats by index (`statsRef`). The spread clone `{ ...player }` in
  `createTournament` copies the `statsRef` (the same nested object) and
  the scalar `elo` by value — exactly the JS shallow-copy semantics.
* `playerH` holds player objects; the registry (`playerDb`) and a
  tournament participant list refer to them by index.
* `matchH` holds match objects; a tournament refers to its matches by
  index, and bracket rounds share those indices.
`Math.random().toString(36)`-based id generation is modelled by a
counter producing the distinct ids `id0`, `id1`, …; the `Math.random`
draws of `shuffleArray` come from the injected `rand` oracle stream.
`Date` timestamps and the per-match move log (never written by the
orchestrator operations) are not modelled. ELO updates follow the exact
real-number formula with `Math.round x = ⌊x + 1/2⌋`.
-/

inductive PlayerType
  | Human
  | AI
deriving DecidableEq, Repr

structure Stats where
  wins : Nat
  losses : Nat
  draws : Nat
  gamesPlayed : Nat
deriving DecidableEq, Repr

instance : Inhabited Stats := ⟨⟨0, 0, 0, 0⟩⟩

structure PlayerObj where
  id : String
  name : String
  ptype : PlayerType
  difficulty : Option Difficulty
  statsRef : Nat
  elo : Int
deriving DecidableEq, Repr

instance : Inhabited PlayerObj := ⟨⟨"", "", .Human, none, 0, 0⟩⟩

inductive MatchResult
  | Player1
  | Player2
  | Draw
  | Pending
deriving DecidableEq, Repr

/-- A match object; the player slots are `Option` refs because the
unwired double-elimination placeholders carry `null` players. -/
structure MatchObj where
  id : String
  player1 : Option Nat
  player2 : Option Nat
  result : MatchResult
  roundNumber : Nat
deriving DecidableEq, Repr

instance : Inhabited MatchObj := ⟨⟨"", none, none, .Pending, 0⟩⟩

inductive TournamentType
  | SingleElimination
  | DoubleElimination
  | RoundRobin
  | Swiss
deriving DecidableEq, Repr

inductive TournamentStatus
  | Setup
  | InProgress
  | Completed
deriving DecidableEq, Repr

structure Tournament where
  id : String
  name : String
  ttype : TournamentType
  status : TournamentStatus
  players : List Nat
  «matches» : List Nat
  rounds : List (List Nat)
  grandFinals : Option Nat
  currentRound : Nat
  totalRounds : Nat
  winner : Option Nat
deriving DecidableEq, Repr

structure Sys where
  statsH : List Stats
  playerH : List PlayerObj
  matchH : List MatchObj
  playerDb : List (String × Nat)
  tournaments : List (String × Tournament)
  nextId : Nat
  rand : List Nat
deriving Repr

/-- Heap reads (`getD` with the `Inhabited` default; all refs produced
by the operations are in range). -/
def sGet (sys : Sys) (r : Nat) : Stats := sys.statsH.getD r default

def pGet (sys : Sys) (r : Nat) : PlayerObj := sys.playerH.getD r default

def mGet (sys : Sys) (r : Nat) : MatchObj := sys.matchH.getD r default

def mSet (sys : Sys) (r : Nat) (m : MatchObj) : Sys :=
  { sys with matchH := sys.matchH.set r m }

def allocStats (sys : Sys) (st : Stats) : Nat × Sys :=
  (sys.statsH.length, { sys with statsH := sys.statsH ++ [st] })

def allocPlayer (sys : Sys) (p : PlayerObj) : Nat × Sys :=
  (sys.playerH.length, { sys with playerH := sys.playerH ++ [p] })

def allocMatch (sys : Sys) (m : MatchObj) : Nat × Sys :=
  (sys.matchH.length, { sys with matchH := sys.matchH ++ [m] })

/-- `generateId`, modelled as a counter of distinct ids. -/
def generateId (sys : Sys) : String × Sys :=
  ("id" ++ toString sys.nextId, { sys with nextId := sys.nextId + 1 })

/-- One `Math.random` draw of the oracle stream. -/
def takeRand (sys : Sys) : Nat × Sys :=
  (sys.rand.headD 0, { sys with rand := sys.rand.tail })

def dbFind (sys : Sys) (id : String) : Option Nat :=
  (sys.playerDb.find? (fun e => e.1 == id)).map (fun e => e.2)

def tFind (sys : Sys) (id : String) : Option Tournament :=
  (sys.tournaments.find? (fun e => e.1 == id)).map (fun e => e.2)

def tSet (sys : Sys) (id : String) (t : Tournament) : Sys :=
  { sys with tournaments := sys.tournaments.map (fun e => if e.1 == id then (e.1, t) else e) }

/-- The system state right after the constructor ran
`initializeAIPlayers`: five AI players at ELO `1200 + 200 * index`. -/
def initialSys (rand : List Nat) : Sys :=
  { statsH := List.replicate 5 ⟨0, 0, 0, 0⟩
    playerH :=
      [⟨"ai_easy", "AI Easy", .AI, some .Easy, 0, 1200⟩,
       ⟨"ai_medium", "AI Medium", .AI, some .Medium, 1, 1400⟩,
       ⟨"ai_hard", "AI Hard", .AI, some .Hard, 2, 1600⟩,
       ⟨"ai_expert", "AI Expert", .AI, some .Expert, 3, 1800⟩,
       ⟨"ai_impossible", "AI Impossible", .AI, some .Impossible, 4, 2000⟩]
    matchH := []
    playerDb :=
      [("ai_easy", 0), ("ai_medium", 1), ("ai_hard", 2), ("ai_expert", 3), ("ai_impossible", 4)]
    tournaments := []
    nextId := 0
    rand := rand }

/-- Fueled helper computing `Math.ceil (Math.log2 n)` by the recurrence
`clog2 n = clog2 ⌈n / 2⌉ + 1` (structural recursion, so terms reduce). -/
def clog2Go : Nat → Nat → Nat
  | 0, _ => 0
  | fuel + 1, n => if n ≤ 1 then 0 else clog2Go fuel ((n + 1) / 2) + 1

/-- `Math.ceil (Math.log2 n)` for positive `n`. -/
def clog2 (n : Nat) : Nat := clog2Go n n

/-- `calculateTotalRounds`. -/
def calculateTotalRounds (ttype : TournamentType) (playerCount : Nat) : Nat :=
  match ttype with
  | .SingleElimination => clog2 playerCount
  | .DoubleElimination => clog2 playerCount * 2
  | .RoundRobin => 1
  | .Swiss => clog2 playerCount

/-- Collect the reference of one freshly allocated clone in front of the
result of cloning the remaining players. -/
def cloneStep (r1 : Nat) : Except String (Sys × List Nat) → Except String (Sys × List Nat)
  | .error e => .error e
  | .ok (sys2, refs) => .ok (sys2, r1 :: refs)

/-- Resolve and shallow-clone the requested players, in order. The clone
copies every field of the registry object — including the `statsRef` to
the shared stats object — and allocates a fresh player object. -/
def cloneAll (sys : Sys) : List String → Except String (Sys × List Nat)
  | [] => .ok (sys, [])
  | id :: rest =>
    match dbFind sys id with
    | none => .error ("Player " ++ id ++ " not found")
    | some r0 =>
      cloneStep (allocPlayer sys (pGet sys r0)).1
        (cloneAll (allocPlayer sys (pGet sys r0)).2 rest)

/-- The pairing loop of `generateSingleEliminationBracket` (and of the
Swiss round 1): consecutive slots, a match only when both are players. -/
def pairMatches (sys : Sys) : List (Option Nat) → Nat → Sys × List Nat
  | p1 :: p2 :: rest, roundNumber =>
    match p1, p2 with
    | some a, some b =>
      let (mid, sys1) := generateId sys
      let (mr, sys2) := allocMatch sys1
        { id := mid, player1 := some a, player2 := some b, result := .Pending,
          roundNumber := roundNumber }
      let res := pairMatches sys2 rest roundNumber
      (res.1, mr :: res.2)
    | _, _ => pairMatches sys rest roundNumber
  | _, _ => (sys, [])

/-- The `while (players.length > 1)` loop of the single-elimination
bracket generator; the fuel (the slot-list length suffices) makes the
recursion structural. -/
def seRounds (fuel : Nat) (sys : Sys) (players : List (Option Nat)) (roundNumber : Nat)
    (t : Tournament) : Sys × Tournament :=
  match fuel with
  | 0 => (sys, t)
  | fuel' + 1 =>
    if players.length > 1 then
      let res := pairMatches sys players roundNumber
      let t1 := { t with rounds := t.rounds ++ [res.2], «matches» := t.«matches» ++ res.2 }
      seRounds fuel' res.1 (res.2.map (fun _ => none)) (roundNumber + 1) t1
    else (sys, t)

def generateSingleEliminationBracket (sys : Sys) (t : Tournament) : Sys × Tournament :=
  let players0 := t.players.map some
  let nextPowerOf2 := 2 ^ clog2 players0.length
  let padded := players0 ++ List.replicate (nextPowerOf2 - players0.length) none
  seRounds padded.length sys padded 1 { t with rounds := [] }

/-- The losers-bracket placeholders of `generateDoubleEliminationBracket`:
one `null`-player match per winners-bracket match (round + 100), created
(consuming ids and heap slots) but collected only in a discarded local
array. -/
def deLosersAllocs (sys : Sys) : List (List Nat) → Sys
  | [] => sys
  | round :: rest =>
    let sys1 := round.foldl (fun acc mr =>
      let (mid, acc1) := generateId acc
      let res := allocMatch acc1
        { id := mid, player1 := none, player2 := none, result := .Pending,
          roundNumber := (mGet acc mr).roundNumber + 100 }
      res.2) sys
    deLosersAllocs sys1 rest

def generateDoubleEliminationBracket (sys : Sys) (t : Tournament) : Sys × Tournament :=
  let res := generateSingleEliminationBracket sys t
  let sys1 := deLosersAllocs res.1 res.2.rounds
  let (gid, sys2) := generateId sys1
  let res2 := allocMatch sys2
    { id := gid, player1 := none, player2 := none, result := .Pending, roundNumber := 999 }
  (res2.2, { res.2 with grandFinals := some res2.1 })

/-- All `i < j` pairings of the round-robin generator, in loop order. -/
def rrWith (sys : Sys) (p : Nat) : List Nat → Sys × List Nat
  | [] => (sys, [])
  | q :: qs =>
    let (mid, sys1) := generateId sys
    let res := allocMatch sys1
      { id := mid, player1 := some p, player2 := some q, result := .Pending, roundNumber := 1 }
    let rest := rrWith res.2 p qs
    (rest.1, res.1 :: rest.2)

def rrPairs (sys : Sys) : List Nat → Sys × List Nat
  | [] => (sys, [])
  | p :: rest =>
    let res1 := rrWith sys p rest
    let res2 := rrPairs res1.1 rest
    (res2.1, res1.2 ++ res2.2)

def generateRoundRobinBracket (sys : Sys) (t : Tournament) : Sys × Tournament :=
  let res := rrPairs sys t.players
  (res.1, { t with «matches» := t.«matches» ++ res.2, rounds := [t.«matches» ++ res.2] })

/-- Fisher-Yates `shuffleArray` driven by the oracle stream; the JS index
`Math.floor(Math.random() * (i + 1))` is the draw reduced `% (i + 1)`. -/
def shuffleGo : Nat → List Nat → Sys → List Nat × Sys
  | 0, l, sys => (l, sys)
  | k + 1, l, sys =>
    let (r, sys1) := takeRand sys
    let j := r % (k + 2)
    let vi := l.getD (k + 1) 0
    let vj := l.getD j 0
    let l1 := (l.set (k + 1) vj).set j vi
    shuffleGo k l1 sys1

def shuffleArray (l : List Nat) (sys : Sys) : List Nat × Sys :=
  shuffleGo (l.length - 1) l sys

def generateSwissBracket (sys : Sys) (t : Tournament) : Sys × Tournament :=
  let res := shuffleArray t.players sys
  let res2 := pairMatches res.2 (res.1.map some) 1
  (res2.1, { t with «matches» := t.«matches» ++ res2.2, rounds := [res2.2] })

def generateBracket (sys : Sys) (t : Tournament) : Sys × Tournament :=
  match t.ttype with
  | .SingleElimination => generateSingleEliminationBracket sys t
  | .DoubleElimination => generateDoubleEliminationBracket sys t
  | .RoundRobin => generateRoundRobinBracket sys t
  | .Swiss => generateSwissBracket sys t

/-- `createTournament`. -/
def createTournament (sys : Sys) (name : String) (ttype : TournamentType)
    (playerIds : List String) : Except String (Sys × String) :=
  if playerIds.length < 2 then .error "Tournament requires at least 2 players"
  else
    match cloneAll sys playerIds with
    | .error e => .error e
    | .ok (sys1, refs) =>
      let (tid, sys2) := generateId sys1
      let t : Tournament :=
        { id := tid, name := name, ttype := ttype, status := .Setup, players := refs,
          «matches» := [], rounds := [], grandFinals := none, currentRound := 0,
          totalRounds := calculateTotalRounds ttype refs.length, winner := none }
      let res := generateBracket sys2 t
      .ok ({ res.1 with tournaments := res.1.tournaments ++ [(tid, res.2)] }, tid)

/-- `startTournament`. -/
def startTournament (sys : Sys) (tournamentId : String) : Except String Sys :=
  match tFind sys tournamentId with
  | none => .error "Tournament not found"
  | some t =>
    .ok (tSet sys tournamentId { t with status := .InProgress, currentRound := 1 })

/-- `addHumanPlayer`: a fresh registry entry at ELO 1200. -/
def addHumanPlayer (sys : Sys) (name : String) : Sys × String :=
  let (pid, sys1) := generateId sys
  let (sref, sys2) := allocStats sys1 ⟨0, 0, 0, 0⟩
  let res := allocPlayer sys2
    { id := pid, name := name, ptype := .Human, difficulty := none, statsRef := sref,
      elo := 1200 }
  ({ res.2 with playerDb := res.2.playerDb ++ [(pid, res.1)] }, pid)

/-- `getNextMatches`: all pending matches. -/
def getNextMatches (sys : Sys) (tournamentId : String) : Except String (List Nat) :=
  match tFind sys tournamentId with
  | none => .error "Tournament not found"
  | some t => .ok (t.«matches».filter (fun r => (mGet sys r).result == .Pending))

/-- The `updatePlayer` closure of `updatePlayerStats`: mutates the stats
object shared through `statsRef`. -/
def updatePlayer (sys : Sys) (r : Nat) (won drew : Bool) : Sys :=
  let obj := pGet sys r
  let st := sGet sys obj.statsRef
  let st1 : Stats :=
    { gamesPlayed := st.gamesPlayed + 1
      wins := if won then st.wins + 1 else st.wins
      draws := if !won && drew then st.draws + 1 else st.draws
      losses := if !won && !drew then st.losses + 1 else st.losses }
  { sys with statsH := sys.statsH.set obj.statsRef st1 }

/-- `updatePlayerStats` (the `null`-player fallback is unreachable for
matches stored in a tournament). -/
def updatePlayerStats (sys : Sys) (m : MatchObj) : Sys :=
  match m.player1, m.player2 with
  | some r1, some r2 =>
    match m.result with
    | .Player1 => updatePlayer (updatePlayer sys r1 true false) r2 false false
    | .Player2 => updatePlayer (updatePlayer sys r1 false false) r2 true false
    | .Draw => updatePlayer (updatePlayer sys r1 false true) r2 false true
    | .Pending => sys
  | _, _ => sys

noncomputable section

/-- The logistic expected score of the ELO formula. -/
noncomputable def expectedScore (eloSelf eloOther : ℤ) : ℝ :=
  1 / (1 + (10 : ℝ) ^ (((eloOther - eloSelf : ℤ) : ℝ) / 400))

/-- `Math.round`. -/
noncomputable def jround (x : ℝ) : ℤ := ⌊x + 1 / 2⌋

/-- The actual scores per result: 1 / 0 / 0.5. -/
def actualScores (result : MatchResult) : ℝ × ℝ :=
  match result with
  | .Player1 => (1, 0)
  | .Player2 => (0, 1)
  | .Draw => (1 / 2, 1 / 2)
  | .Pending => (0, 0)

/-- The two updated ratings of `updateELORatings` (K = 32); a pending
result leaves the ratings alone (the early return). -/
noncomputable def newELOs (e1 e2 : ℤ) (result : MatchResult) : ℤ × ℤ :=
  if result = .Pending then (e1, e2)
  else
    (jround ((e1 : ℝ) + 32 * ((actualScores result).1 - expectedScore e1 e2)),
     jround ((e2 : ℝ) + 32 * ((actualScores result).2 - expectedScore e2 e1)))

/-- `updateELORatings`: mutates both player objects of the match. -/
noncomputable def updateELORatings (sys : Sys) (m : MatchObj) : Sys :=
  if m.result = .Pending then sys
  else
    match m.player1, m.player2 with
    | some r1, some r2 =>
      let p1 := pGet sys r1
      let p2 := pGet sys r2
      let ns := newELOs p1.elo p2.elo m.result
      let sys1 := { sys with playerH := sys.playerH.set r1 { p1 with elo := ns.1 } }
      let p2b := pGet sys1 r2
      { sys1 with playerH := sys1.playerH.set r2 { p2b with elo := ns.2 } }
    | _, _ => sys

/-- `isTournamentComplete`. -/
def isTournamentComplete (sys : Sys) (t : Tournament) : Bool :=
  let finalRoundMatches := t.«matches».filter (fun r => (mGet sys r).roundNumber == t.totalRounds)
  if finalRoundMatches.length = 0 then false
  else finalRoundMatches.all (fun r => (mGet sys r).result != .Pending)

/-- `completeTournament`: status becomes `Completed`; the winner is set
only for single elimination. -/
def completeTournament (sys : Sys) (t : Tournament) : Tournament :=
  let t1 := { t with status := .Completed }
  if t.ttype = .SingleElimination then
    match t.«matches».find? (fun r =>
        (mGet sys r).roundNumber == t.totalRounds && (mGet sys r).result != .Pending) with
    | some fr =>
      let fm := mGet sys fr
      { t1 with winner := if fm.result = .Player1 then fm.player1 else fm.player2 }
    | none => t1
  else t1

/-- The next-round pairing loop of `advanceSingleElimination` (no
`null` check, unlike the bracket generator). -/
def pairWinners (sys : Sys) : List (Option Nat) → Nat → Sys × List Nat
  | w1 :: w2 :: rest, roundNumber =>
    let (mid, sys1) := generateId sys
    let (mr, sys2) := allocMatch sys1
      { id := mid, player1 := w1, player2 := w2, result := .Pending, roundNumber := roundNumber }
    let res := pairWinners sys2 rest roundNumber
    (res.1, mr :: res.2)
  | _, _ => (sys, [])

/-- `advanceSingleElimination`. -/
def advanceSingleElimination (sys : Sys) (t : Tournament) : Sys × Tournament :=
  let currentRoundMatches := t.«matches».filter (fun r =>
    (mGet sys r).roundNumber == t.currentRound && (mGet sys r).result != .Pending)
  if currentRoundMatches.length = 0 then (sys, t)
  else
    let allCurrentRoundMatches := t.«matches».filter (fun r =>
      (mGet sys r).roundNumber == t.currentRound)
    if currentRoundMatches.length < allCurrentRoundMatches.length then (sys, t)
    else if t.currentRound < t.totalRounds then
      let t1 := { t with currentRound := t.currentRound + 1 }
      let winners := currentRoundMatches.map (fun r =>
        let m := mGet sys r
        match m.result with
        | .Player1 => m.player1
        | .Player2 => m.player2
        | _ => m.player1)
      let res := pairWinners sys winners t1.currentRound
      (res.1, { t1 with «matches» := t1.«matches» ++ res.2 })
    else (sys, t)

/-- `advanceTournament`: only single elimination advances. -/
def advanceTournament (sys : Sys) (t : Tournament) : Sys × Tournament :=
  if t.ttype = .SingleElimination then advanceSingleElimination sys t
  else (sys, t)

/-- `reportMatchResult`. -/
noncomputable def reportMatchResult (sys : Sys) (tournamentId matchId : String)
    (result : MatchResult) : Except String Sys :=
  match tFind sys tournamentId with
  | none => .error "Tournament not found"
  | some t =>
    match t.«matches».find? (fun r => (mGet sys r).id == matchId) with
    | none => .error "Match not found"
    | some mr =>
      let m1 := { mGet sys mr with result := result }
      let sys1 := mSet sys mr m1
      let sys2 := updatePlayerStats sys1 m1
      let sys3 := updateELORatings sys2 m1
      if isTournamentComplete sys3 t then
        .ok (tSet sys3 tournamentId (completeTournament sys3 t))
      else
        let res := advanceTournament sys3 t
        .ok (tSet res.1 tournamentId res.2)

/-! ### Concrete orchestrator runs used by the tournament claims -/

/-- Run for C4: a two-player round-robin tournament, created, started,
and its single match reported. The run returns the format, status and
winner field of the resulting tournament. -/
def runC4 : Except String (TournamentType × TournamentStatus × Option Nat) :=
  match createTournament (initialSys []) "T" .RoundRobin ["ai_easy", "ai_medium"] with
  | .error e => .error e
  | .ok (s1, tid) =>
  match startTournament s1 tid with
  | .error e => .error e
  | .ok s2 =>
  match tFind s2 tid with
  | none => .error "missing tournament"
  | some t =>
  match t.«matches» with
  | [mr] =>
    match reportMatchResult s2 tid (mGet s2 mr).id .Player1 with
    | .error e => .error e
    | .ok s3 =>
      match tFind s3 tid with
      | none => .error "missing tournament"
      | some t3 => .ok (t3.ttype, t3.status, t3.winner)
  | _ => .error "unexpected bracket"

/-- Run for C5, parameterized by the reported result: two human players,
a two-player single-elimination tournament, one reported match. The run
returns the registry entry of the first player: its (shared) stats
object and its rating. -/
def runC5 (result : MatchResult) : Except String (Stats × Int) :=
  let h1 := addHumanPlayer (initialSys []) "Alice"
  let h2 := addHumanPlayer h1.1 "Bob"
  match createTournament h2.1 "T" .SingleElimination [h1.2, h2.2] with
  | .error e => .error e
  | .ok (s3, tid) =>
  match startTournament s3 tid with
  | .error e => .error e
  | .ok s4 =>
  match tFind s4 tid with
  | none => .error "missing tournament"
  | some t =>
  match t.«matches» with
  | [mr] =>
    match reportMatchResult s4 tid (mGet s4 mr).id result with
    | .error e => .error e
    | .ok s5 =>
      match dbFind s5 h1.2 with
      | none => .error "missing player"
      | some r => .ok (sGet s5 (pGet s5 r).statsRef, (pGet s5 r).elo)
  | _ => .error "unexpected bracket"

/-- Run for C6: like `runC5`, but the single match is reported twice —
first a draw, then, on the already-terminal match, `Player1`. The run
returns the final result field of the match and the stats object of the
first player — it reaches `.ok` only if the second report succeeded. -/
def runC6 : Except String (MatchResult × Stats) :=
  let h1 := addHumanPlayer (initialSys []) "Alice"
  let h2 := addHumanPlayer h1.1 "Bob"
  match createTournament h2.1 "T" .SingleElimination [h1.2, h2.2] with
  | .error e => .error e
  | .ok (s3, tid) =>
  match startTournament s3 tid with
  | .error e => .error e
  | .ok s4 =>
  match tFind s4 tid with
  | none => .error "missing tournament"
  | some t =>
  match t.«matches» with
  | [mr] =>
    match reportMatchResult s4 tid (mGet s4 mr).id .Draw with
    | .error e => .error e
    | .ok s5 =>
    match reportMatchResult s5 tid (mGet s5 mr).id .Player1 with
    | .error e => .error e
    | .ok s6 =>
      match (mGet s6 mr).player1 with
      | none => .error "unexpected match"
      | some r1 => .ok ((mGet s6 mr).result, sGet s6 (pGet s6 r1).statsRef)
  | _ => .error "unexpected bracket"

/-- Observations of the C7 run. -/
structure C7Out where
  totalRounds : Nat
  round1Pairs : List (Option Nat × Option Nat)
  round2Pairs : List (Option Nat × Option Nat)
  statusAfter : TournamentStatus
  winnerAfter : Option Nat
  winnerId : Option String
deriving DecidableEq, Repr

/-- Run for C7: four human players, a single-elimination tournament;
`Player1` is reported in both round-1 matches, then in the generated
final. -/
def runC7 : Except String C7Out :=
  let h1 := addHumanPlayer (initialSys []) "Alice"
  let h2 := addHumanPlayer h1.1 "Bob"
  let h3 := addHumanPlayer h2.1 "Carol"
  let h4 := addHumanPlayer h3.1 "Dave"
  match createTournament h4.1 "T" .SingleElimination [h1.2, h2.2, h3.2, h4.2] with
  | .error e => .error e
  | .ok (s5, tid) =>
  match tFind s5 tid with
  | none => .error "missing tournament"
  | some t0 =>
  match t0.rounds.headD [] with
  | [m1, m2] =>
    match startTournament s5 tid with
    | .error e => .error e
    | .ok s6 =>
    match reportMatchResult s6 tid (mGet s6 m1).id .Player1 with
    | .error e => .error e
    | .ok s7 =>
    match reportMatchResult s7 tid (mGet s7 m2).id .Player1 with
    | .error e => .error e
    | .ok s8 =>
    match tFind s8 tid with
    | none => .error "missing tournament"
    | some t1 =>
    match t1.«matches».filter (fun r => (mGet s8 r).roundNumber == 2) with
    | [m3] =>
      match reportMatchResult s8 tid (mGet s8 m3).id .Player1 with
      | .error e => .error e
      | .ok s9 =>
        match tFind s9 tid with
        | none => .error "missing tournament"
        | some t2 =>
          .ok { totalRounds := t0.totalRounds
                round1Pairs := (t0.rounds.headD []).map
                  (fun r => ((mGet s5 r).player1, (mGet s5 r).player2))
                round2Pairs := (t1.«matches».filter
                  (fun r => (mGet s8 r).roundNumber == 2)).map
                  (fun r => ((mGet s8 r).player1, (mGet s8 r).player2))
                statusAfter := t2.status
                winnerAfter := t2.winner
                winnerId := t2.winner.map (fun r => (pGet s9 r).id) }
    | _ => .error "unexpected second round"
  | _ => .error "unexpected bracket"

end

/-- The system state used by the C6 witness: a two-player
single-elimination tournament whose single match is already resolved as
a draw. -/
noncomputable def sysT : Sys :=
  let h1 := addHumanPlayer (initialSys []) "Alice"
  let h2 := addHumanPlayer h1.1 "Bob"
  match createTournament h2.1 "T" .SingleElimination [h1.2, h2.2] with
  | .error _ => initialSys []
  | .ok (s3, tid) =>
  match startTournament s3 tid with
  | .error _ => initialSys []
  | .ok s4 =>
  match reportMatchResult s4 tid "id3" .Draw with
  | .error _ => initialSys []
  | .ok s5 => s5

/-- The tournament stored in `sysT`. -/
def tC6 : Tournament :=
  { id := "id2", name := "T", ttype := .SingleElimination, status := .Completed,
    players := [7, 8], «matches» := [0], rounds := [[0]], grandFinals := none,
    currentRound := 1, totalRounds := 1, winner := some 8 }

/-! ### Reachability of orchestrator states and the winner invariant -/

/-- One orchestrator operation. The `start` step carries the restriction
of the amended claim: `startTournament` is only invoked on a tournament
still in `Setup` (the code itself never checks this, and restarting a
completed tournament would break the invariant). -/
inductive Step : Sys → Sys → Prop where
  | addHuman (sys : Sys) (name : String) : Step sys (addHumanPlayer sys name).1
  | create (sys : Sys) (name : String) (ttype : TournamentType) (ids : List String)
      (sys' : Sys) (tid : String) :
      createTournament sys name ttype ids = .ok (sys', tid) → Step sys sys'
  | start (sys : Sys) (tid : String) (t : Tournament) (sys' : Sys) :
      tFind sys tid = some t → t.status = .Setup →
      startTournament sys tid = .ok sys' → Step sys sys'
  | report (sys : Sys) (tid mid : String) (result : MatchResult) (sys' : Sys) :
      reportMatchResult sys tid mid result = .ok sys' → Step sys sys'

/-- States reachable from a fresh orchestrator. -/
inductive Reachable : Sys → Prop where
  | init (rand : List Nat) : Reachable (initialSys rand)
  | step {s1 s2 : Sys} : Reachable s1 → Step s1 s2 → Reachable s2

/-- A valid stored match: in range, with both player slots filled. -/
def MatchOk (sys : Sys) (r : Nat) : Prop :=
  r < sys.matchH.length ∧ (mGet sys r).player1 ≠ none ∧ (mGet sys r).player2 ≠ none

/-- The match heap only grows and never loses a player slot. -/
def MPres (sys sys' : Sys) : Prop :=
  sys.matchH.length ≤ sys'.matchH.length ∧
  ∀ r, r < sys.matchH.length →
    (mGet sys' r).player1 = (mGet sys r).player1 ∧
    (mGet sys' r).player2 = (mGet sys r).player2

/-- The two winner-related facts of claim C4 for one tournament. -/
def WinnerOk (t : Tournament) : Prop :=
  (t.winner ≠ none → t.status = .Completed) ∧
  (t.ttype = .SingleElimination → t.status = .Completed → t.winner ≠ none)

/-- The inductive system invariant. -/
def SysInv (sys : Sys) : Prop :=
  ∀ e ∈ sys.tournaments, WinnerOk e.2 ∧ ∀ r ∈ e.2.«matches», MatchOk sys r

/-- The state used by the C4 witness: a two-player round-robin
tournament has just been created. -/
def sysW : Sys :=
  match createTournament (initialSys []) "T" .RoundRobin ["ai_easy", "ai_medium"] with
  | .ok (s, _) => s
  | .error _ => initialSys []

/-! ## Theorems -/

/-! ### Basic lemmas about the board model -/

theorem toE_le_toE {a b : ℤ} : toE a ≤ toE b ↔ a ≤ b := by
  simp [toE]

theorem toE_lt_toE {a b : ℤ} : toE a < toE b ↔ a < b := by
  simp [toE]

theorem toE_ne_bot (a : ℤ) : toE a ≠ ⊥ := by
  simp [toE]

theorem toE_lt_top (a : ℤ) : toE a < ⊤ := by
  have h1 : ((a : WithTop ℤ) : E) < ((⊤ : WithTop ℤ) : E) :=
    WithBot.coe_lt_coe.mpr (WithTop.coe_lt_top a)
  exact h1

theorem toE_max (a b : ℤ) : max (toE a) (toE b) = toE (max a b) := by
  rcases le_total a b with h | h
  · rw [max_eq_right h, max_eq_right (toE_le_toE.mpr h)]
  · rw [max_eq_left h, max_eq_left (toE_le_toE.mpr h)]

theorem toE_min (a b : ℤ) : min (toE a) (toE b) = toE (min a b) := by
  rcases le_total a b with h | h
  · rw [min_eq_left h, min_eq_left (toE_le_toE.mpr h)]
  · rw [min_eq_right h, min_eq_right (toE_le_toE.mpr h)]

theorem avail_nil_iff_full (b : Board) :
    getAvailableMoves b = [] ↔ isBoardFull b = true := by
  simp only [getAvailableMoves, isBoardFull, boardFlat, List.filter_eq_nil_iff,
    List.all_eq_true, List.mem_map, beq_iff_eq]
  constructor
  · rintro h c ⟨q, hq, rfl⟩
    simpa using h q hq
  · intro h q hq
    have := h (b q.row q.col) ⟨q, hq, rfl⟩
    simpa using this

theorem length_avail_le (b : Board) : (getAvailableMoves b).length ≤ 9 := by
  have h := List.length_filter_le (fun q => b q.row q.col == none) allPositions
  simpa [allPositions] using h

theorem avail_nodup (b : Board) : (getAvailableMoves b).Nodup :=
  List.Nodup.filter _ (by decide)

theorem mem_avail_iff {b : Board} {q : Pos} :
    q ∈ getAvailableMoves b ↔ q ∈ allPositions ∧ b q.row q.col = none := by
  simp [getAvailableMoves, List.mem_filter]

theorem getAvailableMoves_makeMove (b : Board) (mv : Pos) (p : Player) :
    getAvailableMoves (makeMove b mv p) =
      (getAvailableMoves b).filter (fun x => x != mv) := by
  unfold getAvailableMoves
  rw [List.filter_filter]
  apply List.filter_congr
  intro x _
  by_cases hx : x = mv
  · subst hx
    simp [makeMove]
  · have hx' : ¬(x.row = mv.row ∧ x.col = mv.col) := by
      intro ⟨h1, h2⟩
      exact hx (by cases x; cases mv; simp_all)
    simp [makeMove, hx', hx]

theorem length_avail_makeMove {b : Board} {mv : Pos} (p : Player)
    (h : mv ∈ getAvailableMoves b) :
    (getAvailableMoves (makeMove b mv p)).length = (getAvailableMoves b).length - 1 := by
  rw [getAvailableMoves_makeMove]
  have hnd := avail_nodup b
  have := hnd.erase_eq_filter mv
  rw [← this]
  exact List.length_erase_of_mem h

theorem le_foldMax_init (val : Pos → E) : ∀ (ms : List Pos) (a : E), a ≤ foldMax val ms a := by
  intro ms
  induction ms with
  | nil => intro a; exact le_rfl
  | cons x xs ih =>
    intro a
    exact le_trans (le_max_right (val x) a) (ih (max (val x) a))

theorem foldMax_init_max (val : Pos → E) :
    ∀ (ms : List Pos) (c a : E), foldMax val ms (max c a) = max c (foldMax val ms a) := by
  intro ms
  induction ms with
  | nil => intro c a; rfl
  | cons x xs ih =>
    intro c a
    show foldMax val xs (max (val x) (max c a)) = max c (foldMax val xs (max (val x) a))
    rw [max_left_comm, ih]

theorem foldMax_le (val : Pos → E) {B : E} :
    ∀ (ms : List Pos) (a : E), (∀ x ∈ ms, val x ≤ B) → a ≤ B → foldMax val ms a ≤ B := by
  intro ms
  induction ms with
  | nil => intro a _ ha; exact ha
  | cons x xs ih =>
    intro a hall ha
    exact ih (max (val x) a) (fun y hy => hall y (List.mem_cons_of_mem _ hy))
      (max_le (hall x (List.mem_cons_self _ _)) ha)

theorem le_foldMax_of_mem (val : Pos → E) :
    ∀ {ms : List Pos} {x : Pos} (a : E), x ∈ ms → val x ≤ foldMax val ms a := by
  intro ms
  induction ms with
  | nil => intro x a hx; cases hx
  | cons y ys ih =>
    intro x a hx
    rcases List.mem_cons.mp hx with rfl | hx'
    · exact le_trans (le_max_left (val x) a) (le_foldMax_init val ys (max (val x) a))
    · exact ih (max (val y) a) hx'

theorem foldMin_init_le (val : Pos → E) : ∀ (ms : List Pos) (a : E), foldMin val ms a ≤ a := by
  intro ms
  induction ms with
  | nil => intro a; exact le_rfl
  | cons x xs ih =>
    intro a
    exact le_trans (ih (min (val x) a)) (min_le_right (val x) a)

theorem foldMin_init_min (val : Pos → E) :
    ∀ (ms : List Pos) (c a : E), foldMin val ms (min c a) = min c (foldMin val ms a) := by
  intro ms
  induction ms with
  | nil => intro c a; rfl
  | cons x xs ih =>
    intro c a
    show foldMin val xs (min (val x) (min c a)) = min c (foldMin val xs (min (val x) a))
    rw [min_left_comm, ih]

theorem le_foldMin (val : Pos → E) {B : E} :
    ∀ (ms : List Pos) (a : E), (∀ x ∈ ms, B ≤ val x) → B ≤ a → B ≤ foldMin val ms a := by
  intro ms
  induction ms with
  | nil => intro a _ ha; exact ha
  | cons x xs ih =>
    intro a hall ha
    exact ih (min (val x) a) (fun y hy => hall y (List.mem_cons_of_mem _ hy))
      (le_min (hall x (List.mem_cons_self _ _)) ha)

theorem foldMin_le_of_mem (val : Pos → E) :
    ∀ {ms : List Pos} {x : Pos} (a : E), x ∈ ms → foldMin val ms a ≤ val x := by
  intro ms
  induction ms with
  | nil => intro x a hx; cases hx
  | cons y ys ih =>
    intro x a hx
    rcases List.mem_cons.mp hx with rfl | hx'
    · exact le_trans (foldMin_init_le val ys (min (val x) a)) (min_le_left (val x) a)
    · exact ih (min (val y) a) hx'

theorem KM3.diag {g lo hi : E} : KM3 g g lo hi :=
  ⟨fun _ => le_rfl, fun _ => le_rfl, fun _ _ => Eq.refl g⟩

theorem abMaxLoop_km (eval : Pos → E → E → E) (val : Pos → E) (hi : E) :
    ∀ (ms : List Pos) (a lo : E),
      (∀ mv ∈ ms, ∀ lo', lo' < hi → KM3 (eval mv lo' hi) (val mv) lo' hi) →
      max lo a < hi →
      KM3 (abMaxLoop eval hi ms (max lo a) a) (foldMax val ms a) lo hi := by
  intro ms
  induction ms with
  | nil => intro a lo _ _; exact KM3.diag
  | cons mv rest ih =>
    intro a lo hch hlt
    have child := hch mv (List.mem_cons_self _ _) (max lo a) hlt
    show KM3
      (if hi ≤ max (max lo a) (eval mv (max lo a) hi) then max a (eval mv (max lo a) hi)
       else abMaxLoop eval hi rest (max (max lo a) (eval mv (max lo a) hi))
         (max a (eval mv (max lo a) hi)))
      (foldMax val rest (max (val mv) a)) lo hi
    set ev := eval mv (max lo a) hi with hev_def
    by_cases hbr : hi ≤ max (max lo a) ev
    · rw [if_pos hbr]
      have hev : hi ≤ ev := by
        rcases le_max_iff.mp hbr with h | h
        · exact absurd h (not_le.mpr hlt)
        · exact h
      have hv1 : ev ≤ val mv := child.2.1 hev
      refine ⟨?_, ?_, ?_⟩
      · intro hle
        have : hi ≤ lo := le_trans hev (le_trans (le_max_right a ev) hle)
        exact absurd (lt_of_le_of_lt (le_trans this (le_max_left lo a)) hlt) (lt_irrefl hi)
      · intro _
        refine le_trans (max_le ?_ ?_) (le_foldMax_init val rest (max (val mv) a))
        · exact le_max_right (val mv) a
        · exact le_trans hv1 (le_max_left (val mv) a)
      · intro _ h2
        exact absurd (lt_of_le_of_lt (le_trans hev (le_max_right a ev)) h2) (lt_irrefl hi)
    · rw [if_neg hbr]
      have halt : max lo (max a ev) < hi := by
        rw [← max_assoc]
        exact not_le.mp hbr
      have hch' : ∀ x ∈ rest, ∀ lo', lo' < hi → KM3 (eval x lo' hi) (val x) lo' hi :=
        fun x hx => hch x (List.mem_cons_of_mem _ hx)
      have ihr := ih (max a ev) lo hch' halt
      rw [← max_assoc] at ihr
      set g := abMaxLoop eval hi rest (max (max lo a) ev) (max a ev) with hg_def
      set Q := foldMax val rest a with hQ_def
      have hQa : foldMax val rest (max a ev) = max ev Q := by
        rw [max_comm a ev]; exact foldMax_init_max val rest ev a
      have hVV : foldMax val rest (max (val mv) a) = max (val mv) Q :=
        foldMax_init_max val rest (val mv) a
      rw [hQa] at ihr
      rw [hVV]
      by_cases hle1 : ev ≤ max lo a
      · have hv1 : val mv ≤ ev := child.1 hle1
        refine ⟨?_, ?_, ?_⟩
        · intro h
          exact le_trans (max_le_max hv1 le_rfl) (ihr.1 h)
        · intro h
          have hevlt : ev < g := lt_of_le_of_lt hle1 (lt_of_lt_of_le hlt h)
          have := ihr.2.1 h
          rcases le_max_iff.mp this with h' | h'
          · exact absurd (lt_of_lt_of_le hevlt h') (lt_irrefl ev)
          · exact le_trans h' (le_max_right (val mv) Q)
        · intro h1 h2
          have hgq := ihr.2.2 h1 h2
          rcases le_or_lt ev Q with hc | hc
          · rw [max_eq_right hc] at hgq
            rw [hgq, max_eq_right (le_trans hv1 hc)]
          · rw [max_eq_left (le_of_lt hc)] at hgq
            rcases le_max_iff.mp hle1 with h' | h'
            · rw [hgq] at h1
              exact absurd (lt_of_lt_of_le h1 h') (lt_irrefl lo)
            · have : ev ≤ Q := le_trans h' (le_foldMax_init val rest a)
              exact absurd (lt_of_lt_of_le hc this) (lt_irrefl Q)
      · have hwl : max lo a < ev := not_le.mp hle1
        have hwr : ev < hi := by
          rcases max_lt_iff.mp (not_le.mp hbr) with ⟨_, h⟩
          exact h
        rw [← child.2.2 hwl hwr]
        exact ihr

theorem abMinLoop_km (eval : Pos → E → E → E) (val : Pos → E) (lo : E) :
    ∀ (ms : List Pos) (a hi : E),
      (∀ mv ∈ ms, ∀ hi', lo < hi' → KM3 (eval mv lo hi') (val mv) lo hi') →
      lo < min hi a →
      KM3 (abMinLoop eval lo ms (min hi a) a) (foldMin val ms a) lo hi := by
  intro ms
  induction ms with
  | nil => intro a hi _ _; exact KM3.diag
  | cons mv rest ih =>
    intro a hi hch hlt
    have child := hch mv (List.mem_cons_self _ _) (min hi a) hlt
    show KM3
      (if min (min hi a) (eval mv lo (min hi a)) ≤ lo then min a (eval mv lo (min hi a))
       else abMinLoop eval lo rest (min (min hi a) (eval mv lo (min hi a)))
         (min a (eval mv lo (min hi a))))
      (foldMin val rest (min (val mv) a)) lo hi
    set ev := eval mv lo (min hi a) with hev_def
    by_cases hbr : min (min hi a) ev ≤ lo
    · rw [if_pos hbr]
      have hev : ev ≤ lo := by
        rcases min_le_iff.mp hbr with h | h
        · exact absurd h (not_le.mpr hlt)
        · exact h
      have hv1 : val mv ≤ ev := child.1 hev
      refine ⟨?_, ?_, ?_⟩
      · intro _
        refine le_trans (foldMin_init_le val rest (min (val mv) a)) (le_min ?_ ?_)
        · exact min_le_right (val mv) a
        · exact le_trans (min_le_left (val mv) a) hv1
      · intro hle
        have : hi ≤ lo := le_trans (le_trans hle (min_le_right a ev)) hev
        exact absurd (lt_of_lt_of_le hlt (le_trans (min_le_left hi a) this))
          (lt_irrefl lo)
      · intro h1 _
        exact absurd (lt_of_lt_of_le h1 (le_trans (min_le_right a ev) hev)) (lt_irrefl lo)
    · rw [if_neg hbr]
      have halt : lo < min hi (min a ev) := by
        rw [← min_assoc]
        exact not_le.mp hbr
      have hch' : ∀ x ∈ rest, ∀ hi', lo < hi' → KM3 (eval x lo hi') (val x) lo hi' :=
        fun x hx => hch x (List.mem_cons_of_mem _ hx)
      have ihr := ih (min a ev) hi hch' halt
      rw [← min_assoc] at ihr
      set g := abMinLoop eval lo rest (min (min hi a) ev) (min a ev) with hg_def
      set Q := foldMin val rest a with hQ_def
      have hQa : foldMin val rest (min a ev) = min ev Q := by
        rw [min_comm a ev]; exact foldMin_init_min val rest ev a
      have hVV : foldMin val rest (min (val mv) a) = min (val mv) Q :=
        foldMin_init_min val rest (val mv) a
      rw [hQa] at ihr
      rw [hVV]
      by_cases hge : min hi a ≤ ev
      · have hv1 : ev ≤ val mv := child.2.1 hge
        refine ⟨?_, ?_, ?_⟩
        · intro h
          have hgev : g < ev := lt_of_le_of_lt h (lt_of_lt_of_le hlt hge)
          rcases min_le_iff.mp (ihr.1 h) with h' | h'
          · exact absurd (lt_of_le_of_lt h' hgev) (lt_irrefl ev)
          · exact le_trans (min_le_right (val mv) Q) h'
        · intro h
          have hg2 := le_min_iff.mp (ihr.2.1 h)
          exact le_min (le_trans hg2.1 hv1) hg2.2
        · intro h1 h2
          have hgq := ihr.2.2 h1 h2
          rcases min_le_iff.mp hge with h' | h'
          · have hgev : g < ev := lt_of_lt_of_le h2 h'
            rcases le_or_lt ev Q with hc | hc
            · rw [min_eq_left hc] at hgq
              exact absurd (hgq ▸ hgev) (lt_irrefl ev)
            · rw [min_eq_right (le_of_lt hc)] at hgq
              have hQv : Q ≤ val mv := le_of_lt (lt_of_lt_of_le (hgq ▸ hgev) hv1)
              rw [hgq, min_eq_right hQv]
          · have hQe : Q ≤ ev := le_trans (foldMin_init_le val rest a) h'
            rw [min_eq_right hQe] at hgq
            rw [hgq, min_eq_right (le_trans hQe hv1)]
      · have hwl : ev < min hi a := not_le.mp hge
        have hwr : lo < ev := (lt_min_iff.mp (not_le.mp hbr)).2
        rw [← child.2.2 hwr hwl]
        exact ihr

theorem km_minimax (p : Player) (fuel : Nat) :
    ∀ (b : Board) (depth : Nat) (isMax : Bool) (lo hi : E),
      (getAvailableMoves b).length ≤ fuel → lo < hi →
      KM3 (minimaxAlphaBetaFuel p fuel b depth lo hi isMax)
        (minimaxFuel p fuel b depth isMax) lo hi := by
  induction fuel with
  | zero =>
    intro b depth isMax lo hi _ _
    have : minimaxAlphaBetaFuel p 0 b depth lo hi isMax = minimaxFuel p 0 b depth isMax := by
      simp only [minimaxAlphaBetaFuel, minimaxFuel]
    rw [this]
    exact KM3.diag
  | succ fuel' ih =>
    intro b depth isMax lo hi hlen hlt
    have hchlen : ∀ mv ∈ getAvailableMoves b, ∀ q : Player,
        (getAvailableMoves (makeMove b mv q)).length ≤ fuel' := by
      intro mv hm q
      rw [length_avail_makeMove q hm]
      have hpos : 1 ≤ (getAvailableMoves b).length := List.length_pos.mpr
        (List.ne_nil_of_mem hm)
      omega
    simp only [minimaxAlphaBetaFuel, minimaxFuel]
    split_ifs with h1 h2 h3 hmax
    · exact KM3.diag
    · exact KM3.diag
    · exact KM3.diag
    · have hkm := abMaxLoop_km
        (fun mv a bt => minimaxAlphaBetaFuel p fuel' (makeMove b mv p) (depth + 1) a bt false)
        (fun mv => minimaxFuel p fuel' (makeMove b mv p) (depth + 1) false)
        hi (getAvailableMoves b) ⊥ lo
        (fun mv hm lo' hlt' => ih (makeMove b mv p) (depth + 1) false lo' hi
          (hchlen mv hm p) hlt')
        (by rw [max_eq_left bot_le]; exact hlt)
      rw [max_eq_left bot_le] at hkm
      exact hkm
    · have hkm := abMinLoop_km
        (fun mv a bt => minimaxAlphaBetaFuel p fuel' (makeMove b mv p.other) (depth + 1) a bt true)
        (fun mv => minimaxFuel p fuel' (makeMove b mv p.other) (depth + 1) true)
        lo (getAvailableMoves b) ⊤ hi
        (fun mv hm hi' hlt' => ih (makeMove b mv p.other) (depth + 1) true lo hi'
          (hchlen mv hm p.other) hlt')
        (by rw [min_eq_left le_top]; exact hlt)
      rw [min_eq_left le_top] at hkm
      exact hkm

theorem minimaxFuel_finite (p : Player) (fuel : Nat) :
    ∀ (b : Board) (depth : Nat) (isMax : Bool),
      ∃ z : ℤ, minimaxFuel p fuel b depth isMax = toE z := by
  induction fuel with
  | zero =>
    intro b depth isMax
    simp only [minimaxFuel]
    split_ifs
    · exact ⟨_, rfl⟩
    · exact ⟨_, rfl⟩
    · exact ⟨0, rfl⟩
    · exact ⟨0, rfl⟩
  | succ fuel' ih =>
    intro b depth isMax
    simp only [minimaxFuel]
    split_ifs with h1 h2 h3 hmax
    · exact ⟨_, rfl⟩
    · exact ⟨_, rfl⟩
    · exact ⟨0, rfl⟩
    · have hne : getAvailableMoves b ≠ [] := by
        intro h
        exact h3 ((avail_nil_iff_full b).mp h)
      have aux : ∀ (ms : List Pos) (z0 : ℤ),
          ∃ z, foldMax (fun mv => minimaxFuel p fuel' (makeMove b mv p) (depth + 1) false)
            ms (toE z0) = toE z := by
        intro ms
        induction ms with
        | nil => intro z0; exact ⟨z0, rfl⟩
        | cons x xs ihm =>
          intro z0
          obtain ⟨zx, hzx⟩ := ih (makeMove b x p) (depth + 1) false
          show ∃ z, foldMax (fun mv => minimaxFuel p fuel' (makeMove b mv p) (depth + 1) false)
            xs (max (minimaxFuel p fuel' (makeMove b x p) (depth + 1) false) (toE z0)) = toE z
          rw [hzx, toE_max]
          exact ihm (max zx z0)
      obtain ⟨mv0, rest, hms⟩ := List.exists_cons_of_ne_nil hne
      rw [hms]
      obtain ⟨z0, hz0⟩ := ih (makeMove b mv0 p) (depth + 1) false
      show ∃ z, foldMax (fun mv => minimaxFuel p fuel' (makeMove b mv p) (depth + 1) false)
        rest (max (minimaxFuel p fuel' (makeMove b mv0 p) (depth + 1) false) ⊥) = toE z
      rw [hz0, max_eq_left bot_le]
      exact aux rest z0
    · have hne : getAvailableMoves b ≠ [] := by
        intro h
        exact h3 ((avail_nil_iff_full b).mp h)
      have aux : ∀ (ms : List Pos) (z0 : ℤ),
          ∃ z, foldMin (fun mv => minimaxFuel p fuel' (makeMove b mv p.other) (depth + 1) true)
            ms (toE z0) = toE z := by
        intro ms
        induction ms with
        | nil => intro z0; exact ⟨z0, rfl⟩
        | cons x xs ihm =>
          intro z0
          obtain ⟨zx, hzx⟩ := ih (makeMove b x p.other) (depth + 1) true
          show ∃ z, foldMin (fun mv => minimaxFuel p fuel' (makeMove b mv p.other) (depth + 1) true)
            xs (min (minimaxFuel p fuel' (makeMove b x p.other) (depth + 1) true) (toE z0)) = toE z
          rw [hzx, toE_min]
          exact ihm (min zx z0)
      obtain ⟨mv0, rest, hms⟩ := List.exists_cons_of_ne_nil hne
      rw [hms]
      obtain ⟨z0, hz0⟩ := ih (makeMove b mv0 p.other) (depth + 1) true
      show ∃ z, foldMin (fun mv => minimaxFuel p fuel' (makeMove b mv p.other) (depth + 1) true)
        rest (min (minimaxFuel p fuel' (makeMove b mv0 p.other) (depth + 1) true) ⊤) = toE z
      rw [hz0, min_eq_left le_top]
      exact aux rest z0

/-- Full-window alpha-beta agrees with plain minimax on every board,
depth and flag. -/
theorem minimaxAlphaBeta_eq_minimax (p : Player) (b : Board) (depth : Nat) (isMax : Bool) :
    minimaxAlphaBeta p b depth ⊥ ⊤ isMax = minimax p b depth isMax := by
  obtain ⟨z, hz⟩ := minimaxFuel_finite p 9 b depth isMax
  have hkm := km_minimax p 9 b depth isMax ⊥ ⊤ (length_avail_le b) bot_lt_top
  have h1 : ¬ minimaxAlphaBetaFuel p 9 b depth ⊥ ⊤ isMax ≤ ⊥ := by
    intro h
    have := hkm.1 h
    rw [hz] at this
    exact toE_ne_bot z (le_bot_iff.mp (le_trans this h))
  have h2 : ¬ (⊤ : E) ≤ minimaxAlphaBetaFuel p 9 b depth ⊥ ⊤ isMax := by
    intro h
    have := hkm.2.1 h
    rw [hz] at this
    exact absurd (lt_of_le_of_lt (le_trans h this) (toE_lt_top z)) (lt_irrefl _)
  have := hkm.2.2 (not_le.mp h1) (not_le.mp h2)
  rw [hz] at this
  show minimaxAlphaBetaFuel p 9 b depth ⊥ ⊤ isMax = minimaxFuel p 9 b depth isMax
  rw [this, hz]

/-! ### Unfolding lemmas for `minimaxFuel` -/

theorem minimaxFuel_win {p : Player} {b : Board} (fuel depth : Nat) (isMax : Bool)
    (h : getWinner b = some p) :
    minimaxFuel p fuel b depth isMax = toE (10 - (depth : ℤ)) := by
  cases fuel
  all_goals simp only [minimaxFuel]
  all_goals rw [if_pos h]

theorem minimaxFuel_lose {p : Player} {b : Board} (fuel depth : Nat) (isMax : Bool)
    (h1 : getWinner b ≠ some p) (h2 : getWinner b = some p.other) :
    minimaxFuel p fuel b depth isMax = toE ((depth : ℤ) - 10) := by
  cases fuel
  all_goals simp only [minimaxFuel]
  all_goals rw [if_neg h1, if_pos h2]

theorem minimaxFuel_full {p : Player} {b : Board} (fuel depth : Nat) (isMax : Bool)
    (h1 : getWinner b ≠ some p) (h2 : getWinner b ≠ some p.other)
    (h3 : isBoardFull b = true) :
    minimaxFuel p fuel b depth isMax = toE 0 := by
  cases fuel
  all_goals simp only [minimaxFuel]
  all_goals rw [if_neg h1, if_neg h2, if_pos h3]

theorem minimaxFuel_succ_min {p : Player} {b : Board} (fuel' depth : Nat)
    (h1 : getWinner b ≠ some p) (h2 : getWinner b ≠ some p.other)
    (h3 : ¬ isBoardFull b = true) :
    minimaxFuel p (fuel' + 1) b depth false =
      foldMin (fun mv => minimaxFuel p fuel' (makeMove b mv p.other) (depth + 1) true)
        (getAvailableMoves b) ⊤ := by
  simp only [minimaxFuel]
  rw [if_neg h1, if_neg h2, if_neg h3]
  rfl

/-! ### Wins are preserved and detected -/

theorem makeMove_preserves_other {b : Board} {mv : Pos} {p q : Player} (hpq : q ≠ p)
    (h : checkWin b q = false) : checkWin (makeMove b mv p) q = false := by
  have hcell : ∀ r c : Nat, makeMove b mv p r c = some q → b r c = some q := by
    intro r c hrc
    simp only [makeMove] at hrc
    by_cases hcond : r = mv.row ∧ c = mv.col
    · rw [if_pos hcond] at hrc
      exact absurd (Option.some.inj hrc).symm hpq
    · rw [if_neg hcond] at hrc
      exact hrc
  cases hc : checkWin (makeMove b mv p) q
  · rfl
  · exfalso
    have hb : checkWin b q = true := by
      simp only [checkWin, Bool.or_eq_true, Bool.and_eq_true, beq_iff_eq] at hc ⊢
      rcases hc with (((((((⟨⟨a1, a2⟩, a3⟩ | ⟨⟨a1, a2⟩, a3⟩) | ⟨⟨a1, a2⟩, a3⟩) |
        ⟨⟨a1, a2⟩, a3⟩) | ⟨⟨a1, a2⟩, a3⟩) | ⟨⟨a1, a2⟩, a3⟩) | ⟨⟨a1, a2⟩, a3⟩) |
        ⟨⟨a1, a2⟩, a3⟩)
      · exact Or.inl (Or.inl (Or.inl (Or.inl (Or.inl (Or.inl
          (Or.inl ⟨⟨hcell _ _ a1, hcell _ _ a2⟩, hcell _ _ a3⟩))))))
      · exact Or.inl (Or.inl (Or.inl (Or.inl (Or.inl (Or.inl
          (Or.inr ⟨⟨hcell _ _ a1, hcell _ _ a2⟩, hcell _ _ a3⟩))))))
      · exact Or.inl (Or.inl (Or.inl (Or.inl (Or.inl
          (Or.inr ⟨⟨hcell _ _ a1, hcell _ _ a2⟩, hcell _ _ a3⟩)))))
      · exact Or.inl (Or.inl (Or.inl (Or.inl
          (Or.inr ⟨⟨hcell _ _ a1, hcell _ _ a2⟩, hcell _ _ a3⟩))))
      · exact Or.inl (Or.inl (Or.inl
          (Or.inr ⟨⟨hcell _ _ a1, hcell _ _ a2⟩, hcell _ _ a3⟩)))
      · exact Or.inl (Or.inl
          (Or.inr ⟨⟨hcell _ _ a1, hcell _ _ a2⟩, hcell _ _ a3⟩))
      · exact Or.inl
          (Or.inr ⟨⟨hcell _ _ a1, hcell _ _ a2⟩, hcell _ _ a3⟩)
      · exact Or.inr ⟨⟨hcell _ _ a1, hcell _ _ a2⟩, hcell _ _ a3⟩
    rw [hb] at h
    exact Bool.noConfusion h

theorem getWinner_eq_none_iff {b : Board} :
    getWinner b = none ↔ checkWin b .X = false ∧ checkWin b .O = false := by
  unfold getWinner
  split_ifs with hX hO
  · simp_all
  · simp_all
  · simp_all

theorem checkWin_of_getWinner {b : Board} {q : Player} (h : getWinner b = some q) :
    checkWin b q = true := by
  unfold getWinner at h
  split_ifs at h with hX hO
  · rw [← Option.some.inj h]; exact hX
  · rw [← Option.some.inj h]; exact hO

theorem getWinner_makeMove_win {b : Board} {mv : Pos} {p : Player}
    (hw : getWinner b = none) (hcw : checkWin (makeMove b mv p) p = true) :
    getWinner (makeMove b mv p) = some p := by
  obtain ⟨hX, hO⟩ := getWinner_eq_none_iff.mp hw
  cases p
  · unfold getWinner
    rw [if_pos hcw]
  · have hX' : checkWin (makeMove b mv .O) .X = false :=
      makeMove_preserves_other (by decide) hX
    unfold getWinner
    rw [if_neg (by intro hc; rw [hX'] at hc; exact Bool.noConfusion hc), if_pos hcw]

/-! ### Score bounds for the search -/

theorem minimaxFuel_le_bound (p : Player) (fuel : Nat) :
    ∀ (b : Board) (depth : Nat) (isMax : Bool),
      1 ≤ depth → depth + (getAvailableMoves b).length ≤ 10 →
      minimaxFuel p fuel b depth isMax ≤ toE (10 - (depth : ℤ)) := by
  induction fuel with
  | zero =>
    intro b depth isMax h1d hsum
    simp only [minimaxFuel]
    split_ifs
    · exact le_rfl
    · exact toE_le_toE.mpr (by omega)
    · exact toE_le_toE.mpr (by omega)
    · exact toE_le_toE.mpr (by omega)
  | succ fuel' ih =>
    intro b depth isMax h1d hsum
    have hchsum : ∀ mv ∈ getAvailableMoves b, ∀ q : Player,
        depth + 1 + (getAvailableMoves (makeMove b mv q)).length ≤ 10 := by
      intro mv hm q
      rw [length_avail_makeMove q hm]
      have hpos : 1 ≤ (getAvailableMoves b).length := List.length_pos.mpr
        (List.ne_nil_of_mem hm)
      omega
    simp only [minimaxFuel]
    split_ifs with h1 h2 h3 hmax
    · exact le_rfl
    · exact toE_le_toE.mpr (by omega)
    · exact toE_le_toE.mpr (by omega)
    · refine foldMax_le _ (getAvailableMoves b) ⊥ ?_ bot_le
      intro x hx
      refine le_trans (ih (makeMove b x p) (depth + 1) false (by omega) (hchsum x hx p)) ?_
      exact toE_le_toE.mpr (by omega)
    · have hne : getAvailableMoves b ≠ [] := fun h => h3 ((avail_nil_iff_full b).mp h)
      obtain ⟨mv0, rest, hms⟩ := List.exists_cons_of_ne_nil hne
      have hmem : mv0 ∈ getAvailableMoves b := by rw [hms]; exact List.mem_cons_self _ _
      refine le_trans (foldMin_le_of_mem
        (fun mv => minimaxFuel p fuel' (makeMove b mv p.other) (depth + 1) true) ⊤ hmem) ?_
      refine le_trans (ih (makeMove b mv0 p.other) (depth + 1) true (by omega)
        (hchsum mv0 hmem p.other)) ?_
      exact toE_le_toE.mpr (by omega)

theorem minimax_root_win (p : Player) (b : Board) (h : getWinner b = some p) :
    minimax p b 0 false = toE 10 := by
  show minimaxFuel p 9 b 0 false = toE 10
  rw [minimaxFuel_win 9 0 false h]
  norm_num

theorem minimax_root_le (p : Player) (b : Board) : minimax p b 0 false ≤ toE 10 := by
  show minimaxFuel p 9 b 0 false ≤ toE 10
  by_cases h1 : getWinner b = some p
  · rw [minimaxFuel_win 9 0 false h1]; norm_num
  by_cases h2 : getWinner b = some p.other
  · rw [minimaxFuel_lose 9 0 false h1 h2]
    exact toE_le_toE.mpr (by omega)
  by_cases h3 : isBoardFull b = true
  · rw [minimaxFuel_full 9 0 false h1 h2 h3]
    exact toE_le_toE.mpr (by omega)
  · rw [minimaxFuel_succ_min 8 0 h1 h2 h3]
    have hne : getAvailableMoves b ≠ [] := fun h => h3 ((avail_nil_iff_full b).mp h)
    obtain ⟨mv0, rest, hms⟩ := List.exists_cons_of_ne_nil hne
    have hmem : mv0 ∈ getAvailableMoves b := by rw [hms]; exact List.mem_cons_self _ _
    refine le_trans (foldMin_le_of_mem _ ⊤ hmem) ?_
    have hb := minimaxFuel_le_bound p 8 (makeMove b mv0 p.other) 1 true (by omega)
      (by
        rw [length_avail_makeMove p.other hmem]
        have := length_avail_le b
        omega)
    exact le_trans hb (toE_le_toE.mpr (by omega))

theorem minimax_root_lt (p : Player) (b : Board) (h : getWinner b ≠ some p) :
    minimax p b 0 false < toE 10 := by
  show minimaxFuel p 9 b 0 false < toE 10
  by_cases h2 : getWinner b = some p.other
  · rw [minimaxFuel_lose 9 0 false h h2]
    exact toE_lt_toE.mpr (by omega)
  by_cases h3 : isBoardFull b = true
  · rw [minimaxFuel_full 9 0 false h h2 h3]
    exact toE_lt_toE.mpr (by omega)
  · rw [minimaxFuel_succ_min 8 0 h h2 h3]
    have hne : getAvailableMoves b ≠ [] := fun hn => h3 ((avail_nil_iff_full b).mp hn)
    obtain ⟨mv0, rest, hms⟩ := List.exists_cons_of_ne_nil hne
    have hmem : mv0 ∈ getAvailableMoves b := by rw [hms]; exact List.mem_cons_self _ _
    refine lt_of_le_of_lt (foldMin_le_of_mem _ ⊤ hmem) ?_
    have hb := minimaxFuel_le_bound p 8 (makeMove b mv0 p.other) 1 true (by omega)
      (by
        rw [length_avail_makeMove p.other hmem]
        have := length_avail_le b
        omega)
    exact lt_of_le_of_lt hb (toE_lt_toE.mpr (by omega))

/-! ### The selection loop -/

theorem selectLoop_cases (score : Pos → E) :
    ∀ (ms : List Pos) (bm : Pos) (bs : E),
      selectLoop score ms bm bs = (bm, bs) ∨
        ((selectLoop score ms bm bs).1 ∈ ms ∧
          score (selectLoop score ms bm bs).1 = (selectLoop score ms bm bs).2) := by
  intro ms
  induction ms with
  | nil => intro bm bs; exact Or.inl rfl
  | cons mv rest ih =>
    intro bm bs
    simp only [selectLoop]
    by_cases hlt : bs < score mv
    · rw [if_pos hlt]
      rcases ih mv (score mv) with hc | ⟨hm, hs⟩
      · rw [hc]
        exact Or.inr ⟨List.mem_cons_self _ _, rfl⟩
      · exact Or.inr ⟨List.mem_cons_of_mem _ hm, hs⟩
    · rw [if_neg hlt]
      rcases ih bm bs with hc | ⟨hm, hs⟩
      · exact Or.inl hc
      · exact Or.inr ⟨List.mem_cons_of_mem _ hm, hs⟩

theorem selectLoop_fst (score : Pos → E) :
    ∀ (ms : List Pos) (bm : Pos) (bs : E),
      (selectLoop score ms bm bs).1 = bm ∨ (selectLoop score ms bm bs).1 ∈ ms := by
  intro ms bm bs
  rcases selectLoop_cases score ms bm bs with hc | ⟨hm, _⟩
  · exact Or.inl (by rw [hc])
  · exact Or.inr hm

theorem selectLoop_snd (score : Pos → E) :
    ∀ (ms : List Pos) (bm : Pos) (bs : E),
      (selectLoop score ms bm bs).2 = foldMax score ms bs := by
  intro ms
  induction ms with
  | nil => intro bm bs; rfl
  | cons mv rest ih =>
    intro bm bs
    show (if bs < score mv then selectLoop score rest mv (score mv)
      else selectLoop score rest bm bs).2 = foldMax score rest (max (score mv) bs)
    by_cases hlt : bs < score mv
    · rw [if_pos hlt, ih, max_eq_left (le_of_lt hlt)]
    · rw [if_neg hlt, ih, max_eq_right (not_lt.mp hlt)]

/-- The shared win-selection argument: a loop whose per-move score is the
root minimax value picks a winning move whenever one exists on a board no
one has won yet. -/
theorem selectLoop_picks_win (p : Player) (b : Board) (score : Pos → E)
    (hscore : ∀ mv, score mv = minimax p (makeMove b mv p) 0 false)
    (hw : getWinner b = none)
    (hex : ∃ mv ∈ getAvailableMoves b, checkWin (makeMove b mv p) p = true) :
    checkWin (makeMove b
      (selectLoop score (getAvailableMoves b) (getAvailableMoves b).headI ⊥).1 p) p = true := by
  obtain ⟨mvw, hmem, hwin⟩ := hex
  have hwmv : getWinner (makeMove b mvw p) = some p := getWinner_makeMove_win hw hwin
  have hs10 : score mvw = toE 10 := by rw [hscore]; exact minimax_root_win p _ hwmv
  have hub : ∀ x ∈ getAvailableMoves b, score x ≤ toE 10 := by
    intro x _
    rw [hscore]
    exact minimax_root_le p _
  have hfold : foldMax score (getAvailableMoves b) ⊥ = toE 10 := by
    refine le_antisymm (foldMax_le score _ ⊥ hub bot_le) ?_
    rw [← hs10]
    exact le_foldMax_of_mem score ⊥ hmem
  have hsnd : (selectLoop score (getAvailableMoves b) (getAvailableMoves b).headI ⊥).2 = toE 10 := by
    rw [selectLoop_snd, hfold]
  rcases selectLoop_cases score (getAvailableMoves b) (getAvailableMoves b).headI ⊥ with
    hc | ⟨_, hsc⟩
  · rw [hc] at hsnd
    exact absurd hsnd.symm (toE_ne_bot 10)
  · rw [hsnd, hscore] at hsc
    by_contra hnc
    have hne : getWinner (makeMove b
        (selectLoop score (getAvailableMoves b) (getAvailableMoves b).headI ⊥).1 p) ≠ some p := by
      intro hgw
      exact hnc (checkWin_of_getWinner hgw)
    exact absurd (hsc ▸ minimax_root_lt p _ hne) (lt_irrefl (toE 10))

theorem mem_avail_legal {b : Board} {q : Pos} (h : q ∈ getAvailableMoves b) :
    LegalFor b q := by
  have hall := (mem_avail_iff.mp h).1
  have hnone := (mem_avail_iff.mp h).2
  simp only [allPositions, List.mem_cons, List.not_mem_nil, or_false] at hall
  rcases hall with rfl | rfl | rfl | rfl | rfl | rfl | rfl | rfl | rfl <;>
    exact ⟨by norm_num, by norm_num, hnone⟩

theorem pick_mem {l : List Pos} (r : Nat) (h : l ≠ []) : pick r l ∈ l := by
  unfold pick
  have hlt : r % l.length < l.length := Nat.mod_lt _ (List.length_pos.mpr h)
  rw [List.getD_eq_getElem l _ hlt]
  exact List.getElem_mem hlt

theorem headI_mem_of_ne_nil {l : List Pos} (h : l ≠ []) : l.headI ∈ l := by
  cases l with
  | nil => exact absurd rfl h
  | cons x xs => exact List.mem_cons_self _ _

theorem getRandomMove_mem (r : Nat) {moves : List Pos} (h : moves ≠ []) :
    (getRandomMove r moves).position ∈ moves := by
  unfold getRandomMove
  set ccm := moves.filter (fun mv =>
    (mv.row == 1 && mv.col == 1) ||
    ((mv.row == 0 || mv.row == 2) && (mv.col == 0 || mv.col == 2))) with hccm
  show pick r (if ccm.length > 0 then ccm else moves) ∈ moves
  by_cases hl : ccm.length > 0
  · rw [if_pos hl]
    have hne : ccm ≠ [] := by
      intro h0
      rw [h0] at hl
      exact absurd hl (by norm_num)
    exact List.mem_of_mem_filter (pick_mem r hne)
  · rw [if_neg hl]
    exact pick_mem r h

theorem getMediumMove_legal (p : Player) (r1 r2 : Nat) (b : Board) {moves : List Pos}
    (hmv : moves = getAvailableMoves b) (h : moves ≠ []) :
    LegalFor b (getMediumMove p r1 r2 b moves).position := by
  unfold getMediumMove
  cases hf1 : moves.find? (fun mv => checkWin (makeMove b mv p) p) with
  | some mv =>
    exact mem_avail_legal (hmv ▸ List.mem_of_find?_eq_some hf1)
  | none =>
  cases hf2 : moves.find? (fun mv => checkWin (makeMove b mv p.other) p.other) with
  | some mv =>
    exact mem_avail_legal (hmv ▸ List.mem_of_find?_eq_some hf2)
  | none =>
  by_cases hc : b 1 1 = none
  · rw [if_pos hc]
    exact ⟨by norm_num, by norm_num, hc⟩
  · rw [if_neg hc]
    set corners := [(⟨0, 0⟩ : Pos), ⟨0, 2⟩, ⟨2, 0⟩, ⟨2, 2⟩].filter
      (fun q => b q.row q.col == none) with hcorners
    by_cases hl : corners.length > 0
    · rw [if_pos hl]
      have hne : corners ≠ [] := by
        intro h0
        rw [h0] at hl
        exact absurd hl (by norm_num)
      have hmem := pick_mem r1 hne
      rw [hcorners] at hmem
      have hin := List.mem_filter.mp hmem
      have hnone : b (pick r1 corners).row (pick r1 corners).col = none := by
        have := hin.2
        rwa [beq_iff_eq] at this
      have hlist := hin.1
      simp only [List.mem_cons, List.not_mem_nil, or_false] at hlist
      rcases hlist with he | he | he | he <;> rw [he] <;>
        exact ⟨by norm_num, by norm_num, by rw [← he]; exact hnone⟩
    · rw [if_neg hl]
      exact mem_avail_legal (hmv ▸ getRandomMove_mem r2 h)

theorem selectLoop_result_legal (b : Board) (score : Pos → E) {moves : List Pos}
    (hmv : moves = getAvailableMoves b) (h : moves ≠ []) :
    LegalFor b (selectLoop score moves moves.headI ⊥).1 := by
  rcases selectLoop_fst score moves moves.headI ⊥ with he | hm
  · rw [he]
    exact mem_avail_legal (hmv ▸ headI_mem_of_ne_nil h)
  · exact mem_avail_legal (hmv ▸ hm)

theorem getImpossibleMove_legal (p : Player) (mem : PatternMemory) (b : Board)
    {moves : List Pos} (hmv : moves = getAvailableMoves b) (h : moves ≠ []) :
    LegalFor b (getImpossibleMove p mem b moves).position := by
  unfold getImpossibleMove
  cases hp : getPatternMove mem b with
  | some patternMove =>
    show LegalFor b patternMove.position
    cases hmp : mem (boardToPattern b) with
    | none =>
      simp only [getPatternMove, hmp] at hp
      exact Option.noConfusion hp
    | some c =>
      simp only [getPatternMove, hmp] at hp
      by_cases hcond : c ≠ 0 ∧ c > 5
      · rw [if_pos hcond] at hp
        have := Option.some.inj hp
        rw [← this]
        have hne : getAvailableMoves b ≠ [] := hmv ▸ h
        exact mem_avail_legal (headI_mem_of_ne_nil hne)
      · rw [if_neg hcond] at hp
        exact absurd hp (by simp)
  | none =>
    show LegalFor b (selectLoop
      (fun mv => minimaxAlphaBeta p (makeMove b mv p) 0 ⊥ ⊤ false + toE (getPositionalScore mv))
      moves moves.headI ⊥).1
    exact selectLoop_result_legal b _ hmv h

/-! ### Claim theorems for the decision engine -/

/-- C1: for every board (in particular every reachable one), every depth
and every maximizing flag, `minimax` and `minimaxAlphaBeta` with the full
window `(-Infinity, +Infinity)` return the same score. -/
theorem claim_C1 (p : Player) (b : Board) (d : Nat) (m : Bool) :
    minimax p b d m = minimaxAlphaBeta p b d ⊥ ⊤ m :=
  (minimaxAlphaBeta_eq_minimax p b d m).symm

/-- C2: on a board with at least one legal move, `getBestMove` returns a
move without error at every difficulty tier and for every random oracle;
on a board with no legal move it throws the `No available moves` error
(the error the spec classifies as a ValidationError) at every tier. -/
theorem claim_C2 (p : Player) (diff : Difficulty) (mem : PatternMemory) (r1 r2 : Nat)
    (b : Board) :
    if (getAvailableMoves b).length = 0
    then getBestMove p diff mem r1 r2 b = .error "No available moves"
    else (getBestMove p diff mem r1 r2 b).isOk = true := by
  by_cases h : (getAvailableMoves b).length = 0
  · rw [if_pos h]
    unfold getBestMove
    rw [if_pos h]
  · rw [if_neg h]
    unfold getBestMove
    rw [if_neg h]
    cases diff <;> rfl

/-- C3 (amended): on a board nobody has won yet, whenever the active
player has an immediately winning legal move, the Hard and Expert tiers
select such a winning move. (The Impossible tier does not, see the
counterexample: its positional bonus can prefer a non-winning center.) -/
theorem claim_C3 (p : Player) (mem : PatternMemory) (r1 r2 : Nat) (b : Board)
    (hw : getWinner b = none)
    (hex : ∃ mv ∈ getAvailableMoves b, checkWin (makeMove b mv p) p = true) :
    (∃ m, getBestMove p .Hard mem r1 r2 b = .ok m ∧
      checkWin (makeMove b m.position p) p = true) ∧
    (∃ m, getBestMove p .Expert mem r1 r2 b = .ok m ∧
      checkWin (makeMove b m.position p) p = true) := by
  have hne : getAvailableMoves b ≠ [] := by
    obtain ⟨mv, hm, _⟩ := hex
    exact List.ne_nil_of_mem hm
  have hlen : ¬ (getAvailableMoves b).length = 0 := by
    intro h0
    exact hne (List.length_eq_zero.mp h0)
  constructor
  · refine ⟨getHardMove p b (getAvailableMoves b), ?_, ?_⟩
    · unfold getBestMove
      rw [if_neg hlen]
    · show checkWin (makeMove b
        (selectLoop (fun mv => minimax p (makeMove b mv p) 0 false)
          (getAvailableMoves b) (getAvailableMoves b).headI ⊥).1 p) p = true
      exact selectLoop_picks_win p b _ (fun _ => rfl) hw hex
  · refine ⟨getExpertMove p b (getAvailableMoves b), ?_, ?_⟩
    · unfold getBestMove
      rw [if_neg hlen]
    · show checkWin (makeMove b
        (selectLoop (fun mv => minimaxAlphaBeta p (makeMove b mv p) 0 ⊥ ⊤ false)
          (getAvailableMoves b) (getAvailableMoves b).headI ⊥).1 p) p = true
      exact selectLoop_picks_win p b _
        (fun mv => minimaxAlphaBeta_eq_minimax p (makeMove b mv p) 0 false) hw hex

/-- C3 witness: on `boardC3` (no winner yet, X wins immediately at (1,2))
the Hard and Expert tiers indeed pick immediately winning moves. -/
theorem claim_C3_witness :
    getWinner boardC3 = none ∧
    (∃ mv ∈ getAvailableMoves boardC3, checkWin (makeMove boardC3 mv .X) .X = true) ∧
    ((∃ m, getBestMove .X .Hard emptyMem 0 0 boardC3 = .ok m ∧
      checkWin (makeMove boardC3 m.position .X) .X = true) ∧
    (∃ m, getBestMove .X .Expert emptyMem 0 0 boardC3 = .ok m ∧
      checkWin (makeMove boardC3 m.position .X) .X = true)) :=
  ⟨by decide, ⟨⟨1, 2⟩, by decide, by decide⟩,
    claim_C3 .X emptyMem 0 0 boardC3 (by decide) ⟨⟨1, 2⟩, by decide, by decide⟩⟩

/-- C3 counterexample: on `boardC3` the active player X has the
immediately winning legal move (1,2), yet the Impossible tier (with the
empty pattern memory of a fresh engine) selects the center (1,1), which
does not win: the alpha-beta score 8 of the center plus its positional
bonus 3 ties the winning edge total 10 + 1, and the first-seen maximum
wins. -/
theorem claim_C3_counterexample :
    getWinner boardC3 = none ∧
    (∃ mv ∈ getAvailableMoves boardC3, checkWin (makeMove boardC3 mv .X) .X = true) ∧
    getBestMove .X .Impossible emptyMem 0 0 boardC3 =
      .ok { position := ⟨1, 1⟩, score := toE 11, confidence := 1,
            strategy := "Perfect Play + Patterns" } ∧
    checkWin (makeMove boardC3 ⟨1, 1⟩ .X) .X = false :=
  ⟨by decide, ⟨⟨1, 2⟩, by decide, by decide⟩, rfl, by decide⟩

/-- C9: when the stored reinforcement count for the fingerprint of the
current board exceeds 5, the Impossible tier short-circuits: it returns
the pattern-memory move — the first legal move of the board, an arbitrary
legal move not tied to the reinforcement — with the stored count as score
and the `Pattern Recognition` strategy label, bypassing the search. -/
theorem claim_C9 (p : Player) (mem : PatternMemory) (r1 r2 : Nat) (b : Board) (c : ℤ)
    (hmem : mem (boardToPattern b) = some c) (hc : 5 < c)
    (hne : getAvailableMoves b ≠ []) :
    getBestMove p .Impossible mem r1 r2 b =
      .ok { position := (getAvailableMoves b).headI, score := toE c, confidence := 9 / 10,
            strategy := "Pattern Recognition" } ∧
    (getAvailableMoves b).headI ∈ getAvailableMoves b := by
  have hlen : ¬ (getAvailableMoves b).length = 0 := by
    intro h0
    exact hne (List.length_eq_zero.mp h0)
  constructor
  · unfold getBestMove
    rw [if_neg hlen]
    show Except.ok (getImpossibleMove p mem b (getAvailableMoves b)) = _
    unfold getImpossibleMove
    have hpm : getPatternMove mem b =
        some { position := (getAvailableMoves b).headI, score := toE c, confidence := 9 / 10,
               strategy := "Pattern Recognition" } := by
      simp only [getPatternMove, hmem]
      rw [if_pos ⟨by omega, hc⟩]
    rw [hpm]
  · exact headI_mem_of_ne_nil hne

/-- C9 witness: `boardP` with fingerprint `XO_______` stored at count 6
short-circuits to the first legal move (0,2). -/
theorem claim_C9_witness :
    memP (boardToPattern boardP) = some 6 ∧
    (getBestMove .X .Impossible memP 0 0 boardP =
      .ok { position := ⟨0, 2⟩, score := toE 6, confidence := 9 / 10,
            strategy := "Pattern Recognition" } ∧
    (⟨0, 2⟩ : Pos) ∈ getAvailableMoves boardP) := by
  refine ⟨by decide, ?_⟩
  have h := claim_C9 .X memP 0 0 boardP 6 (by decide) (by decide) (by decide)
  exact h

/-- C10: whenever `getBestMove` returns a move — at any tier, for any
pattern memory and random oracle — the returned position is in range
(row and column at most 2) and names an empty cell of the input board. -/
theorem claim_C10 (p : Player) (diff : Difficulty) (mem : PatternMemory) (r1 r2 : Nat)
    (b : Board) (m : AIMove) (h : getBestMove p diff mem r1 r2 b = .ok m) :
    m.position.row ≤ 2 ∧ m.position.col ≤ 2 ∧ b m.position.row m.position.col = none := by
  unfold getBestMove at h
  by_cases hlen : (getAvailableMoves b).length = 0
  · rw [if_pos hlen] at h
    exact Except.noConfusion h
  · rw [if_neg hlen] at h
    have hne : getAvailableMoves b ≠ [] := by
      intro h0
      rw [h0] at hlen
      exact hlen rfl
    cases diff with
    | Easy =>
      have hm := Except.ok.inj h
      rw [← hm]
      exact mem_avail_legal (getRandomMove_mem r1 hne)
    | Medium =>
      have hm := Except.ok.inj h
      rw [← hm]
      exact getMediumMove_legal p r1 r2 b rfl hne
    | Hard =>
      have hm := Except.ok.inj h
      rw [← hm]
      show LegalFor b (selectLoop (fun mv => minimax p (makeMove b mv p) 0 false)
        (getAvailableMoves b) (getAvailableMoves b).headI ⊥).1
      exact selectLoop_result_legal b _ rfl hne
    | Expert =>
      have hm := Except.ok.inj h
      rw [← hm]
      show LegalFor b (selectLoop (fun mv => minimaxAlphaBeta p (makeMove b mv p) 0 ⊥ ⊤ false)
        (getAvailableMoves b) (getAvailableMoves b).headI ⊥).1
      exact selectLoop_result_legal b _ rfl hne
    | Impossible =>
      have hm := Except.ok.inj h
      rw [← hm]
      exact getImpossibleMove_legal p mem b rfl hne

/-- C10 witness: the Hard move on `boardW` is (2,0), in range and empty. -/
theorem claim_C10_witness :
    getBestMove .X .Hard emptyMem 0 0 boardW =
      .ok { position := ⟨2, 0⟩, score := toE 10, confidence := 4 / 5,
            strategy := "Minimax" } ∧
    ((⟨2, 0⟩ : Pos).row ≤ 2 ∧ (⟨2, 0⟩ : Pos).col ≤ 2 ∧ boardW 2 0 = none) := by
  have hok : getBestMove .X .Hard emptyMem 0 0 boardW =
      .ok { position := ⟨2, 0⟩, score := toE 10, confidence := 4 / 5,
            strategy := "Minimax" } := rfl
  exact ⟨hok, claim_C10 .X .Hard emptyMem 0 0 boardW _ hok⟩

theorem claim_C4_counterexample :
    runC4 = .ok (.RoundRobin, .Completed, none) := by decide

/-- C5 counterexample: after creating a tournament from two fresh human
players and reporting its match, the registry entry of the first player
has stats `{wins 1, losses 0, draws 0, gamesPlayed 1}` — not the
untouched `{0,0,0,0}` the claim demands. The spread clone
`{ ...player }` copies the reference to the nested stats object, so the
per-match stat updates write through to the shared registry. -/
theorem claim_C5_counterexample :
    runC5 .Player1 = .ok (⟨1, 0, 0, 1⟩, 1200) ∧
      (⟨1, 0, 0, 1⟩ : Stats) ≠ ⟨0, 0, 0, 0⟩ := by
  constructor
  · decide
  · decide

/-- C5 (amended): the participant snapshots are shallow clones. For
every reported result, the stat update writes through the shared nested
stats object into the registry (`gamesPlayed` becomes 1), while the
scalar `elo` rating is copied by value, so the rating update does not
write back (the registry rating stays 1200). -/
theorem claim_C5 (result : MatchResult) (h : result ≠ .Pending) :
    ∃ st : Stats, runC5 result = .ok (st, 1200) ∧ st.gamesPlayed = 1 := by
  cases result with
  | Player1 => exact ⟨⟨1, 0, 0, 1⟩, by decide, rfl⟩
  | Player2 => exact ⟨⟨0, 1, 0, 1⟩, by decide, rfl⟩
  | Draw => exact ⟨⟨0, 0, 1, 1⟩, by decide, rfl⟩
  | Pending => exact absurd rfl h

/-- C5 witness: the amended claim instantiated at `Player1`. -/
theorem claim_C5_witness :
    (MatchResult.Player1 ≠ .Pending) ∧
      ∃ st : Stats, runC5 .Player1 = .ok (st, 1200) ∧ st.gamesPlayed = 1 :=
  ⟨by decide, claim_C5 .Player1 (by decide)⟩

/-- C6 counterexample: reporting `Player1` on a match whose result is
already the terminal `Draw` does not fail with a StateError — the run
reaches `.ok` — and neither the match nor the player stats are left
unchanged: the result is overwritten to `Player1` and the stat update
runs again (the first player ends with one win, one draw and
`gamesPlayed = 2` after a single actual match). -/
theorem claim_C6_counterexample :
    runC6 = .ok (.Player1, ⟨1, 0, 1, 2⟩) := by decide

/-- C7: in a four-player single-elimination tournament `totalRounds` is
2 and round 1 holds exactly the two matches (9 vs 10 and 11 vs 12 are
the cloned participants of the four players in registration order);
after reporting `Player1` in both, exactly one round-2 match exists and
it pairs the two round-1 winners (9 and 11); reporting `Player1` there
completes the tournament with the winner the player referenced by that
result (ref 9, the clone of the first registered player `id0`). -/
theorem claim_C7 :
    runC7 = .ok
      { totalRounds := 2
        round1Pairs := [(some 9, some 10), (some 11, some 12)]
        round2Pairs := [(some 9, some 11)]
        statusAfter := .Completed
        winnerAfter := some 9
        winnerId := some "id0" } := by decide

/-! ### The ELO update is zero-sum up to rounding -/

theorem expectedScore_add (e1 e2 : ℤ) :
    expectedScore e1 e2 + expectedScore e2 e1 = 1 := by
  unfold expectedScore
  have hx : (((e1 - e2 : ℤ) : ℝ) / 400) = -(((e2 - e1 : ℤ) : ℝ) / 400) := by
    push_cast
    ring
  rw [hx, Real.rpow_neg (by norm_num : (0 : ℝ) ≤ 10)]
  set t := (10 : ℝ) ^ (((e2 - e1 : ℤ) : ℝ) / 400) with ht
  have htpos : 0 < t := Real.rpow_pos_of_pos (by norm_num) _
  have h1 : (1 : ℝ) + t ≠ 0 := by positivity
  have h2 : t ≠ 0 := ne_of_gt htpos
  field_simp
  ring

theorem floor_half_pair (x : ℝ) :
    ⌊x + 1 / 2⌋ + ⌊-x + 1 / 2⌋ = 0 ∨ ⌊x + 1 / 2⌋ + ⌊-x + 1 / 2⌋ = 1 := by
  have h1 : (-x + 1 / 2 : ℝ) = -(x + 1 / 2) + 1 := by ring
  rw [h1, Int.floor_add_one, Int.floor_neg]
  have h2 := Int.floor_le_ceil (x + 1 / 2)
  have h3 := Int.ceil_le_floor_add_one (x + 1 / 2)
  omega

/-- C8: for every pair of pre-match ratings and every match result, the
ELO update with K = 32 is zero-sum up to rounding: the two rounded
rating deltas sum to 0, +1 or -1. (For a pending result both deltas are
zero; in fact with `Math.round x = ⌊x + 1/2⌋` the sum is never -1.) -/
theorem claim_C8 (e1 e2 : ℤ) (result : MatchResult) :
    ((newELOs e1 e2 result).1 - e1) + ((newELOs e1 e2 result).2 - e2) = 0 ∨
    ((newELOs e1 e2 result).1 - e1) + ((newELOs e1 e2 result).2 - e2) = 1 ∨
    ((newELOs e1 e2 result).1 - e1) + ((newELOs e1 e2 result).2 - e2) = -1 := by
  have hE : expectedScore e2 e1 = 1 - expectedScore e1 e2 := by
    have := expectedScore_add e1 e2
    linarith
  set E := expectedScore e1 e2 with hEdef
  cases result with
  | Pending =>
    left
    simp [newELOs]
  | Player1 =>
    have h1 : (newELOs e1 e2 .Player1).1 = ⌊32 * (1 - E) + 1 / 2⌋ + e1 := by
      unfold newELOs
      rw [if_neg (by decide)]
      show jround ((e1 : ℝ) + 32 * ((1 : ℝ) - E)) = _
      unfold jround
      rw [show ((e1 : ℝ) + 32 * ((1 : ℝ) - E) + 1 / 2) =
        (32 * (1 - E) + 1 / 2) + (e1 : ℤ) by push_cast; ring]
      exact Int.floor_add_int _ _
    have h2 : (newELOs e1 e2 .Player1).2 = ⌊-(32 * (1 - E)) + 1 / 2⌋ + e2 := by
      unfold newELOs
      rw [if_neg (by decide)]
      show jround ((e2 : ℝ) + 32 * ((0 : ℝ) - expectedScore e2 e1)) = _
      unfold jround
      rw [hE]
      rw [show ((e2 : ℝ) + 32 * ((0 : ℝ) - (1 - E)) + 1 / 2) =
        (-(32 * (1 - E)) + 1 / 2) + (e2 : ℤ) by push_cast; ring]
      exact Int.floor_add_int _ _
    rcases floor_half_pair (32 * (1 - E)) with h | h <;> omega
  | Player2 =>
    have h1 : (newELOs e1 e2 .Player2).1 = ⌊32 * (0 - E) + 1 / 2⌋ + e1 := by
      unfold newELOs
      rw [if_neg (by decide)]
      show jround ((e1 : ℝ) + 32 * ((0 : ℝ) - E)) = _
      unfold jround
      rw [show ((e1 : ℝ) + 32 * ((0 : ℝ) - E) + 1 / 2) =
        (32 * (0 - E) + 1 / 2) + (e1 : ℤ) by push_cast; ring]
      exact Int.floor_add_int _ _
    have h2 : (newELOs e1 e2 .Player2).2 = ⌊-(32 * (0 - E)) + 1 / 2⌋ + e2 := by
      unfold newELOs
      rw [if_neg (by decide)]
      show jround ((e2 : ℝ) + 32 * ((1 : ℝ) - expectedScore e2 e1)) = _
      unfold jround
      rw [hE]
      rw [show ((e2 : ℝ) + 32 * ((1 : ℝ) - (1 - E)) + 1 / 2) =
        (-(32 * (0 - E)) + 1 / 2) + (e2 : ℤ) by push_cast; ring]
      exact Int.floor_add_int _ _
    rcases floor_half_pair (32 * (0 - E)) with h | h <;> omega
  | Draw =>
    have h1 : (newELOs e1 e2 .Draw).1 = ⌊32 * (1 / 2 - E) + 1 / 2⌋ + e1 := by
      unfold newELOs
      rw [if_neg (by decide)]
      show jround ((e1 : ℝ) + 32 * ((1 / 2 : ℝ) - E)) = _
      unfold jround
      rw [show ((e1 : ℝ) + 32 * ((1 / 2 : ℝ) - E) + 1 / 2) =
        (32 * (1 / 2 - E) + 1 / 2) + (e1 : ℤ) by push_cast; ring]
      exact Int.floor_add_int _ _
    have h2 : (newELOs e1 e2 .Draw).2 = ⌊-(32 * (1 / 2 - E)) + 1 / 2⌋ + e2 := by
      unfold newELOs
      rw [if_neg (by decide)]
      show jround ((e2 : ℝ) + 32 * ((1 / 2 : ℝ) - expectedScore e2 e1)) = _
      unfold jround
      rw [hE]
      rw [show ((e2 : ℝ) + 32 * ((1 / 2 : ℝ) - (1 - E)) + 1 / 2) =
        (-(32 * (1 / 2 - E)) + 1 / 2) + (e2 : ℤ) by push_cast; ring]
      exact Int.floor_add_int _ _
    rcases floor_half_pair (32 * (1 / 2 - E)) with h | h <;> omega

/-! ### Frame lemmas for `reportMatchResult` -/

theorem updatePlayer_matchH (sys : Sys) (r : Nat) (won drew : Bool) :
    (updatePlayer sys r won drew).matchH = sys.matchH := rfl

theorem updatePlayerStats_matchH (sys : Sys) (m : MatchObj) :
    (updatePlayerStats sys m).matchH = sys.matchH := by
  obtain ⟨mid, p1, p2, res, rn⟩ := m
  unfold updatePlayerStats
  cases p1 with
  | none => rfl
  | some r1 =>
    cases p2 with
    | none => rfl
    | some r2 => cases res <;> rfl

theorem updateELORatings_matchH (sys : Sys) (m : MatchObj) :
    (updateELORatings sys m).matchH = sys.matchH := by
  obtain ⟨mid, p1, p2, res, rn⟩ := m
  unfold updateELORatings
  split_ifs with h
  · rfl
  · cases p1 with
    | none => rfl
    | some r1 =>
      cases p2 with
      | none => rfl
      | some r2 => rfl

theorem tSet_matchH (sys : Sys) (id : String) (t : Tournament) :
    (tSet sys id t).matchH = sys.matchH := rfl

theorem mSet_matchH_length (sys : Sys) (r : Nat) (m : MatchObj) :
    (mSet sys r m).matchH.length = sys.matchH.length := by
  simp [mSet]

theorem getD_mSet_self {sys : Sys} {r : Nat} (m : MatchObj) (h : r < sys.matchH.length) :
    (mSet sys r m).matchH.getD r default = m := by
  simp [mSet, List.getD_eq_getElem?_getD, List.getElem?_set_self h]

theorem pairWinners_matchH :
    ∀ (n : Nat) (ws : List (Option Nat)) (rn : Nat) (sys : Sys), ws.length ≤ n →
      ∃ l, (pairWinners sys ws rn).1.matchH = sys.matchH ++ l := by
  intro n
  induction n with
  | zero =>
    intro ws rn sys hlen
    cases ws with
    | nil => exact ⟨[], (List.append_nil _).symm⟩
    | cons w1 rest => simp at hlen
  | succ n ih =>
    intro ws rn sys hlen
    match ws with
    | [] => exact ⟨[], (List.append_nil _).symm⟩
    | [w1] => exact ⟨[], (List.append_nil _).symm⟩
    | w1 :: w2 :: rest =>
      have hlen2 : rest.length ≤ n := by
        simp only [List.length_cons] at hlen
        omega
      unfold pairWinners
      obtain ⟨l, hl⟩ := ih rest rn
        ((allocMatch ((generateId sys).2)
          { id := (generateId sys).1, player1 := w1, player2 := w2, result := .Pending,
            roundNumber := rn }).2) hlen2
      refine ⟨?_ :: l, ?_⟩
      · exact { id := (generateId sys).1, player1 := w1, player2 := w2,
                result := .Pending, roundNumber := rn }
      · rw [hl]
        simp [allocMatch, generateId]

theorem advanceTournament_matchH (sys : Sys) (t : Tournament) :
    ∃ l, (advanceTournament sys t).1.matchH = sys.matchH ++ l := by
  unfold advanceTournament
  by_cases hty : t.ttype = .SingleElimination
  · rw [if_pos hty]
    simp only [advanceSingleElimination]
    split_ifs with h1 h2 h3
    · exact ⟨[], (List.append_nil _).symm⟩
    · exact ⟨[], (List.append_nil _).symm⟩
    · exact pairWinners_matchH _ _ _ sys le_rfl
    · exact ⟨[], (List.append_nil _).symm⟩
  · rw [if_neg hty]
    exact ⟨[], (List.append_nil _).symm⟩

theorem mGet_append {sys : Sys} {r : Nat} (l : List MatchObj) (h : r < sys.matchH.length) :
    (sys.matchH ++ l).getD r default = mGet sys r := by
  unfold mGet
  rw [List.getD_append _ _ _ _ h]

/-- C6 (amended): `reportMatchResult` performs no lifecycle check. For
any found tournament and any found match — whatever its current result,
terminal included — the call succeeds and overwrites the result field
with the given value (and re-applies the stat and rating updates). -/
theorem claim_C6 (sys : Sys) (tid mid : String) (result : MatchResult)
    (t : Tournament) (mr : Nat)
    (ht : tFind sys tid = some t)
    (hm : t.«matches».find? (fun r => (mGet sys r).id == mid) = some mr)
    (hr : mr < sys.matchH.length) :
    ∃ sys', reportMatchResult sys tid mid result = .ok sys' ∧
      (mGet sys' mr).result = result := by
  simp only [reportMatchResult, ht, hm]
  split
  · refine ⟨_, rfl, ?_⟩
    show ((tSet _ tid _).matchH.getD mr default).result = result
    rw [tSet_matchH, updateELORatings_matchH, updatePlayerStats_matchH,
      getD_mSet_self _ hr]
  · refine ⟨_, rfl, ?_⟩
    show ((tSet _ tid _).matchH.getD mr default).result = result
    rw [tSet_matchH]
    obtain ⟨l, hl⟩ := advanceTournament_matchH _ t
    rw [hl, updateELORatings_matchH, updatePlayerStats_matchH]
    have hr1 : mr < (mSet sys mr { mGet sys mr with result := result }).matchH.length := by
      rw [mSet_matchH_length]
      exact hr
    rw [List.getD_append _ _ _ _ hr1, getD_mSet_self _ hr]

/-- C6 witness: in `sysT` the single match (heap ref 0) is already
terminal (`Draw`); reporting `Player1` on it nevertheless succeeds and
overwrites the result. -/
theorem claim_C6_witness :
    tFind sysT "id2" = some tC6 ∧
    tC6.«matches».find? (fun r => (mGet sysT r).id == "id3") = some 0 ∧
    0 < sysT.matchH.length ∧
    (mGet sysT 0).result = .Draw ∧
    ∃ sys', reportMatchResult sysT "id2" "id3" .Player1 = .ok sys' ∧
      (mGet sys' 0).result = .Player1 :=
  ⟨by decide, by decide, by decide, by decide,
    claim_C6 sysT "id2" "id3" .Player1 tC6 0 (by decide) (by decide) (by decide)⟩

theorem MPres.refl (sys : Sys) : MPres sys sys :=
  ⟨le_rfl, fun _ _ => ⟨Eq.refl _, Eq.refl _⟩⟩

theorem MPres.trans {s1 s2 s3 : Sys} (h1 : MPres s1 s2) (h2 : MPres s2 s3) : MPres s1 s3 := by
  refine ⟨le_trans h1.1 h2.1, fun r hr => ?_⟩
  obtain ⟨ha, hb⟩ := h1.2 r hr
  obtain ⟨hc, hd⟩ := h2.2 r (lt_of_lt_of_le hr h1.1)
  exact ⟨hc.trans ha, hd.trans hb⟩

theorem MatchOk.mono {sys sys' : Sys} {r : Nat} (hp : MPres sys sys') (h : MatchOk sys r) :
    MatchOk sys' r := by
  obtain ⟨hr, h1, h2⟩ := h
  obtain ⟨ha, hb⟩ := hp.2 r hr
  exact ⟨lt_of_lt_of_le hr hp.1, by rw [ha]; exact h1, by rw [hb]; exact h2⟩

theorem MPres_of_matchH_eq {sys sys' : Sys} (h : sys'.matchH = sys.matchH) : MPres sys sys' := by
  constructor
  · rw [h]
  · intro r hr
    unfold mGet
    rw [h]
    exact ⟨rfl, rfl⟩

theorem MPres_append {sys sys' : Sys} {l : List MatchObj} (h : sys'.matchH = sys.matchH ++ l) :
    MPres sys sys' := by
  constructor
  · rw [h, List.length_append]
    omega
  · intro r hr
    unfold mGet
    rw [h, List.getD_append _ _ _ _ hr]
    exact ⟨rfl, rfl⟩

theorem tFind_mem {sys : Sys} {tid : String} {t : Tournament} (h : tFind sys tid = some t) :
    ∃ e ∈ sys.tournaments, e.2 = t := by
  unfold tFind at h
  cases hf : sys.tournaments.find? (fun e => e.1 == tid) with
  | none => rw [hf] at h; exact Option.noConfusion h
  | some e =>
    rw [hf] at h
    exact ⟨e, List.mem_of_find?_eq_some hf, Option.some.inj h⟩

theorem mGet_alloc_fresh (sys : Sys) (m : MatchObj) :
    mGet (allocMatch sys m).2 sys.matchH.length = m := by
  unfold mGet allocMatch
  simp [List.getD_append_right]

/-! #### Frame lemmas: which fields each operation touches -/

theorem updatePlayerStats_tournaments (sys : Sys) (m : MatchObj) :
    (updatePlayerStats sys m).tournaments = sys.tournaments := by
  obtain ⟨mid, p1, p2, res, rn⟩ := m
  unfold updatePlayerStats
  cases p1 with
  | none => rfl
  | some r1 =>
    cases p2 with
    | none => rfl
    | some r2 => cases res <;> rfl

theorem updateELORatings_tournaments (sys : Sys) (m : MatchObj) :
    (updateELORatings sys m).tournaments = sys.tournaments := by
  obtain ⟨mid, p1, p2, res, rn⟩ := m
  unfold updateELORatings
  split_ifs with h
  · rfl
  · cases p1 with
    | none => rfl
    | some r1 =>
      cases p2 with
      | none => rfl
      | some r2 => rfl

theorem pairWinners_tournaments :
    ∀ (n : Nat) (ws : List (Option Nat)) (rn : Nat) (sys : Sys), ws.length ≤ n →
      (pairWinners sys ws rn).1.tournaments = sys.tournaments := by
  intro n
  induction n with
  | zero =>
    intro ws rn sys hlen
    cases ws with
    | nil => rfl
    | cons w1 rest => simp at hlen
  | succ n ih =>
    intro ws rn sys hlen
    match ws with
    | [] => rfl
    | [w1] => rfl
    | w1 :: w2 :: rest =>
      have hlen2 : rest.length ≤ n := by
        simp only [List.length_cons] at hlen
        omega
      unfold pairWinners
      exact ih rest rn _ hlen2

theorem advanceTournament_tournaments (sys : Sys) (t : Tournament) :
    (advanceTournament sys t).1.tournaments = sys.tournaments := by
  unfold advanceTournament
  by_cases hty : t.ttype = .SingleElimination
  · rw [if_pos hty]
    simp only [advanceSingleElimination]
    split_ifs with h1 h2 h3
    · rfl
    · rfl
    · exact pairWinners_tournaments _ _ _ sys le_rfl
    · rfl
  · rw [if_neg hty]

theorem pairWinners_facts :
    ∀ (n : Nat) (ws : List (Option Nat)) (rn : Nat) (sys : Sys), ws.length ≤ n →
      (∀ w ∈ ws, w ≠ none) →
      ∀ r ∈ (pairWinners sys ws rn).2, MatchOk (pairWinners sys ws rn).1 r := by
  intro n
  induction n with
  | zero =>
    intro ws rn sys hlen _ r hr
    cases ws with
    | nil => cases hr
    | cons w1 rest => simp at hlen
  | succ n ih =>
    intro ws rn sys hlen hws r hr
    match ws, hr with
    | [w1], hr => cases hr
    | w1 :: w2 :: rest, hr =>
      have hlen2 : rest.length ≤ n := by
        simp only [List.length_cons] at hlen
        omega
      have hws2 : ∀ w ∈ rest, w ≠ none := fun w hw =>
        hws w (List.mem_cons_of_mem _ (List.mem_cons_of_mem _ hw))
      rw [show pairWinners sys (w1 :: w2 :: rest) rn =
        ((pairWinners ((allocMatch ((generateId sys).2)
          { id := (generateId sys).1, player1 := w1, player2 := w2, result := .Pending,
            roundNumber := rn }).2) rest rn).1,
         (allocMatch ((generateId sys).2)
          { id := (generateId sys).1, player1 := w1, player2 := w2, result := .Pending,
            roundNumber := rn }).1 ::
         (pairWinners ((allocMatch ((generateId sys).2)
          { id := (generateId sys).1, player1 := w1, player2 := w2, result := .Pending,
            roundNumber := rn }).2) rest rn).2) from rfl] at hr ⊢
      set sys2 := (allocMatch ((generateId sys).2)
        { id := (generateId sys).1, player1 := w1, player2 := w2, result := .Pending,
          roundNumber := rn }).2 with hsys2
      rcases List.mem_cons.mp hr with rfl | hr2
      · have hfresh : mGet sys2 sys.matchH.length =
            { id := (generateId sys).1, player1 := w1, player2 := w2, result := .Pending,
              roundNumber := rn } := mGet_alloc_fresh _ _
        have hok2 : MatchOk sys2 sys.matchH.length := by
          refine ⟨?_, ?_, ?_⟩
          · show sys.matchH.length < sys2.matchH.length
            rw [hsys2]
            unfold allocMatch generateId
            simp
          · rw [hfresh]
            exact hws w1 (List.mem_cons_self _ _)
          · rw [hfresh]
            exact hws w2 (List.mem_cons_of_mem _ (List.mem_cons_self _ _))
        have hmp : MPres sys2 (pairWinners sys2 rest rn).1 := by
          obtain ⟨l, hl⟩ := pairWinners_matchH rest.length rest rn sys2 le_rfl
          exact MPres_append hl
        exact ((show (allocMatch ((generateId sys).2)
          { id := (generateId sys).1, player1 := w1, player2 := w2, result := .Pending,
            roundNumber := rn }).1 = sys.matchH.length from rfl) ▸ hok2).mono hmp
      · exact ih rest rn sys2 hlen2 hws2 r hr2

theorem pairMatches_split (sys : Sys) (a b : Nat) (rest : List (Option Nat)) (rn : Nat) :
    pairMatches sys (some a :: some b :: rest) rn =
      ((pairMatches ((allocMatch ((generateId sys).2)
          { id := (generateId sys).1, player1 := some a, player2 := some b, result := .Pending,
            roundNumber := rn }).2) rest rn).1,
       (allocMatch ((generateId sys).2)
          { id := (generateId sys).1, player1 := some a, player2 := some b, result := .Pending,
            roundNumber := rn }).1 ::
       (pairMatches ((allocMatch ((generateId sys).2)
          { id := (generateId sys).1, player1 := some a, player2 := some b, result := .Pending,
            roundNumber := rn }).2) rest rn).2) := rfl

theorem pairMatches_skip {p1 p2 : Option Nat} (sys : Sys) (rest : List (Option Nat)) (rn : Nat)
    (h : p1 = none ∨ p2 = none) :
    pairMatches sys (p1 :: p2 :: rest) rn = pairMatches sys rest rn := by
  cases p1 with
  | none => rfl
  | some a =>
    cases p2 with
    | none => rfl
    | some b =>
      rcases h with h | h <;> exact Option.noConfusion h

theorem pairMatches_matchH :
    ∀ (n : Nat) (slots : List (Option Nat)) (rn : Nat) (sys : Sys), slots.length ≤ n →
      ∃ l, (pairMatches sys slots rn).1.matchH = sys.matchH ++ l := by
  intro n
  induction n with
  | zero =>
    intro slots rn sys hlen
    cases slots with
    | nil => exact ⟨[], (List.append_nil _).symm⟩
    | cons w1 rest => simp at hlen
  | succ n ih =>
    intro slots rn sys hlen
    match slots with
    | [] => exact ⟨[], (List.append_nil _).symm⟩
    | [w1] => exact ⟨[], (List.append_nil _).symm⟩
    | p1 :: p2 :: rest =>
      have hlen2 : rest.length ≤ n := by
        simp only [List.length_cons] at hlen
        omega
      by_cases hnn : p1 = none ∨ p2 = none
      · rw [pairMatches_skip sys rest rn hnn]
        have hlen2' : rest.length ≤ n + 1 := le_trans hlen2 (Nat.le_succ n)
        exact ih rest rn sys hlen2
      · push_neg at hnn
        obtain ⟨a, ha⟩ := Option.ne_none_iff_exists'.mp hnn.1
        obtain ⟨b, hb⟩ := Option.ne_none_iff_exists'.mp hnn.2
        subst ha hb
        rw [pairMatches_split]
        obtain ⟨l, hl⟩ := ih rest rn _ hlen2
        refine ⟨{ id := (generateId sys).1, player1 := some a, player2 := some b,
                  result := .Pending, roundNumber := rn } :: l, ?_⟩
        rw [hl]
        simp [allocMatch, generateId]

theorem pairMatches_tournaments :
    ∀ (n : Nat) (slots : List (Option Nat)) (rn : Nat) (sys : Sys), slots.length ≤ n →
      (pairMatches sys slots rn).1.tournaments = sys.tournaments := by
  intro n
  induction n with
  | zero =>
    intro slots rn sys hlen
    cases slots with
    | nil => rfl
    | cons w1 rest => simp at hlen
  | succ n ih =>
    intro slots rn sys hlen
    match slots with
    | [] => rfl
    | [w1] => rfl
    | p1 :: p2 :: rest =>
      have hlen2 : rest.length ≤ n := by
        simp only [List.length_cons] at hlen
        omega
      by_cases hnn : p1 = none ∨ p2 = none
      · rw [pairMatches_skip sys rest rn hnn]
        exact ih rest rn sys hlen2
      · push_neg at hnn
        obtain ⟨a, ha⟩ := Option.ne_none_iff_exists'.mp hnn.1
        obtain ⟨b, hb⟩ := Option.ne_none_iff_exists'.mp hnn.2
        subst ha hb
        rw [pairMatches_split]
        exact ih rest rn _ hlen2

theorem pairMatches_facts :
    ∀ (n : Nat) (slots : List (Option Nat)) (rn : Nat) (sys : Sys), slots.length ≤ n →
      ∀ r ∈ (pairMatches sys slots rn).2, MatchOk (pairMatches sys slots rn).1 r := by
  intro n
  induction n with
  | zero =>
    intro slots rn sys hlen r hr
    cases slots with
    | nil => cases hr
    | cons w1 rest => simp at hlen
  | succ n ih =>
    intro slots rn sys hlen r hr
    match slots with
    | [] => cases hr
    | [w1] => cases hr
    | p1 :: p2 :: rest =>
      have hlen2 : rest.length ≤ n := by
        simp only [List.length_cons] at hlen
        omega
      by_cases hnn : p1 = none ∨ p2 = none
      · rw [pairMatches_skip sys rest rn hnn] at hr ⊢
        exact ih rest rn sys hlen2 r hr
      · push_neg at hnn
        obtain ⟨a, ha⟩ := Option.ne_none_iff_exists'.mp hnn.1
        obtain ⟨b, hb⟩ := Option.ne_none_iff_exists'.mp hnn.2
        subst ha hb
        rw [pairMatches_split] at hr ⊢
        set sys2 := (allocMatch ((generateId sys).2)
          { id := (generateId sys).1, player1 := some a, player2 := some b, result := .Pending,
            roundNumber := rn }).2 with hsys2
        rcases List.mem_cons.mp hr with rfl | hr2
        · have hfresh : mGet sys2 sys.matchH.length =
              { id := (generateId sys).1, player1 := some a, player2 := some b,
                result := .Pending, roundNumber := rn } := mGet_alloc_fresh _ _
          have hok2 : MatchOk sys2 sys.matchH.length := by
            refine ⟨?_, ?_, ?_⟩
            · show sys.matchH.length < sys2.matchH.length
              rw [hsys2]
              unfold allocMatch generateId
              simp
            · rw [hfresh]
              exact Option.noConfusion
            · rw [hfresh]
              exact Option.noConfusion
          have hmp : MPres sys2 (pairMatches sys2 rest rn).1 := by
            obtain ⟨l, hl⟩ := pairMatches_matchH rest.length rest rn sys2 le_rfl
            exact MPres_append hl
          exact ((show (allocMatch ((generateId sys).2)
            { id := (generateId sys).1, player1 := some a, player2 := some b,
              result := .Pending, roundNumber := rn }).1 = sys.matchH.length from rfl) ▸
            hok2).mono hmp
        · exact ih rest rn sys2 hlen2 r hr2

theorem MPres_allocMatch {sys sys' : Sys} (m : MatchObj) (h : sys'.matchH = sys.matchH) :
    MPres sys (allocMatch sys' m).2 := by
  have h2 : (allocMatch sys' m).2.matchH = sys.matchH ++ [m] := by
    show sys'.matchH ++ [m] = sys.matchH ++ [m]
    rw [h]
  exact MPres_append h2

theorem seRounds_succ (fuel : Nat) (sys : Sys) (players : List (Option Nat)) (rn : Nat)
    (t : Tournament) :
    seRounds (fuel + 1) sys players rn t =
      if players.length > 1 then
        seRounds fuel (pairMatches sys players rn).1
          ((pairMatches sys players rn).2.map (fun _ => none)) (rn + 1)
          { t with rounds := t.rounds ++ [(pairMatches sys players rn).2],
                   «matches» := t.«matches» ++ (pairMatches sys players rn).2 }
      else (sys, t) := rfl

theorem seRounds_facts :
    ∀ (fuel : Nat) (sys : Sys) (players : List (Option Nat)) (rn : Nat) (t : Tournament),
      (∀ r ∈ t.«matches», MatchOk sys r) →
      ((seRounds fuel sys players rn t).1.tournaments = sys.tournaments ∧
        MPres sys (seRounds fuel sys players rn t).1) ∧
      ((seRounds fuel sys players rn t).2.status = t.status ∧
        (seRounds fuel sys players rn t).2.winner = t.winner ∧
        (seRounds fuel sys players rn t).2.ttype = t.ttype) ∧
      ∀ r ∈ (seRounds fuel sys players rn t).2.«matches»,
        MatchOk (seRounds fuel sys players rn t).1 r := by
  intro fuel
  induction fuel with
  | zero =>
    intro sys players rn t hmo
    exact ⟨⟨Eq.refl _, MPres.refl sys⟩, ⟨Eq.refl _, Eq.refl _, Eq.refl _⟩, hmo⟩
  | succ fuel ih =>
    intro sys players rn t hmo
    rw [seRounds_succ]
    by_cases hp : players.length > 1
    · rw [if_pos hp]
      set res := pairMatches sys players rn with hres
      set t1 : Tournament :=
        { t with rounds := t.rounds ++ [res.2], «matches» := t.«matches» ++ res.2 } with ht1
      have hmp1 : MPres sys res.1 := by
        obtain ⟨l, hl⟩ := pairMatches_matchH players.length players rn sys le_rfl
        exact MPres_append hl
      have hmo1 : ∀ r ∈ t1.«matches», MatchOk res.1 r := by
        intro r hr
        rw [ht1] at hr
        rcases List.mem_append.mp hr with hr1 | hr2
        · exact (hmo r hr1).mono hmp1
        · exact pairMatches_facts players.length players rn sys le_rfl r hr2
      have hrec := ih res.1 (res.2.map (fun _ => none)) (rn + 1) t1 hmo1
      exact ⟨⟨hrec.1.1.trans (pairMatches_tournaments players.length players rn sys le_rfl),
              hmp1.trans hrec.1.2⟩,
             ⟨hrec.2.1.1, hrec.2.1.2.1, hrec.2.1.2.2⟩, hrec.2.2⟩
    · rw [if_neg hp]
      exact ⟨⟨Eq.refl _, MPres.refl sys⟩, ⟨Eq.refl _, Eq.refl _, Eq.refl _⟩, hmo⟩

theorem rrWith_matchH :
    ∀ (qs : List Nat) (p : Nat) (sys : Sys),
      ∃ l, (rrWith sys p qs).1.matchH = sys.matchH ++ l := by
  intro qs
  induction qs with
  | nil => intro p sys; exact ⟨[], (List.append_nil _).symm⟩
  | cons q rest ih =>
    intro p sys
    unfold rrWith
    obtain ⟨l, hl⟩ := ih p ((allocMatch ((generateId sys).2)
      { id := (generateId sys).1, player1 := some p, player2 := some q, result := .Pending,
        roundNumber := 1 }).2)
    refine ⟨{ id := (generateId sys).1, player1 := some p, player2 := some q,
              result := .Pending, roundNumber := 1 } :: l, ?_⟩
    rw [hl]
    simp [allocMatch, generateId]

theorem rrWith_tournaments :
    ∀ (qs : List Nat) (p : Nat) (sys : Sys),
      (rrWith sys p qs).1.tournaments = sys.tournaments := by
  intro qs
  induction qs with
  | nil => intro p sys; rfl
  | cons q rest ih =>
    intro p sys
    unfold rrWith
    exact ih p _

theorem rrWith_facts :
    ∀ (qs : List Nat) (p : Nat) (sys : Sys),
      ∀ r ∈ (rrWith sys p qs).2, MatchOk (rrWith sys p qs).1 r := by
  intro qs
  induction qs with
  | nil => intro p sys r hr; cases hr
  | cons q rest ih =>
    intro p sys r hr
    unfold rrWith at hr ⊢
    set sys2 := (allocMatch ((generateId sys).2)
      { id := (generateId sys).1, player1 := some p, player2 := some q, result := .Pending,
        roundNumber := 1 }).2 with hsys2
    rcases List.mem_cons.mp hr with rfl | hr2
    · have hfresh : mGet sys2 sys.matchH.length =
          { id := (generateId sys).1, player1 := some p, player2 := some q,
            result := .Pending, roundNumber := 1 } := mGet_alloc_fresh _ _
      have hok2 : MatchOk sys2 sys.matchH.length := by
        refine ⟨?_, ?_, ?_⟩
        · show sys.matchH.length < sys2.matchH.length
          rw [hsys2]
          unfold allocMatch generateId
          simp
        · rw [hfresh]
          exact Option.noConfusion
        · rw [hfresh]
          exact Option.noConfusion
      have hmp : MPres sys2 (rrWith sys2 p rest).1 := by
        obtain ⟨l, hl⟩ := rrWith_matchH rest p sys2
        exact MPres_append hl
      exact ((show (allocMatch ((generateId sys).2)
        { id := (generateId sys).1, player1 := some p, player2 := some q,
          result := .Pending, roundNumber := 1 }).1 = sys.matchH.length from rfl) ▸
        hok2).mono hmp
    · exact ih p sys2 r hr2

theorem rrPairs_matchH :
    ∀ (ps : List Nat) (sys : Sys), ∃ l, (rrPairs sys ps).1.matchH = sys.matchH ++ l := by
  intro ps
  induction ps with
  | nil => intro sys; exact ⟨[], (List.append_nil _).symm⟩
  | cons p rest ih =>
    intro sys
    unfold rrPairs
    obtain ⟨l1, hl1⟩ := rrWith_matchH rest p sys
    obtain ⟨l2, hl2⟩ := ih (rrWith sys p rest).1
    refine ⟨l1 ++ l2, ?_⟩
    rw [hl2, hl1, List.append_assoc]

theorem rrPairs_tournaments :
    ∀ (ps : List Nat) (sys : Sys), (rrPairs sys ps).1.tournaments = sys.tournaments := by
  intro ps
  induction ps with
  | nil => intro sys; rfl
  | cons p rest ih =>
    intro sys
    unfold rrPairs
    rw [ih, rrWith_tournaments]

theorem rrPairs_facts :
    ∀ (ps : List Nat) (sys : Sys),
      ∀ r ∈ (rrPairs sys ps).2, MatchOk (rrPairs sys ps).1 r := by
  intro ps
  induction ps with
  | nil => intro sys r hr; cases hr
  | cons p rest ih =>
    intro sys r hr
    unfold rrPairs at hr ⊢
    rcases List.mem_append.mp hr with hr1 | hr2
    · have hmp : MPres (rrWith sys p rest).1 (rrPairs (rrWith sys p rest).1 rest).1 := by
        obtain ⟨l, hl⟩ := rrPairs_matchH rest (rrWith sys p rest).1
        exact MPres_append hl
      exact (rrWith_facts rest p sys r hr1).mono hmp
    · exact ih _ r hr2

theorem deLosersAllocs_facts :
    ∀ (rounds : List (List Nat)) (sys : Sys),
      (deLosersAllocs sys rounds).tournaments = sys.tournaments ∧
        MPres sys (deLosersAllocs sys rounds) := by
  have hfold : ∀ (round : List Nat) (sys : Sys),
      (round.foldl (fun acc mr =>
        let p := generateId acc
        (allocMatch p.2
          { id := p.1, player1 := none, player2 := none, result := .Pending,
            roundNumber := (mGet acc mr).roundNumber + 100 }).2) sys).tournaments =
        sys.tournaments ∧
      MPres sys (round.foldl (fun acc mr =>
        let p := generateId acc
        (allocMatch p.2
          { id := p.1, player1 := none, player2 := none, result := .Pending,
            roundNumber := (mGet acc mr).roundNumber + 100 }).2) sys) := by
    intro round
    induction round with
    | nil => intro sys; exact ⟨Eq.refl _, MPres.refl sys⟩
    | cons mr rest ih =>
      intro sys
      have hstep : MPres sys ((allocMatch ((generateId sys).2)
          { id := (generateId sys).1, player1 := none, player2 := none, result := .Pending,
            roundNumber := (mGet sys mr).roundNumber + 100 }).2) :=
        MPres_allocMatch _ (Eq.refl _)
      obtain ⟨ht, hm⟩ := ih ((allocMatch ((generateId sys).2)
        { id := (generateId sys).1, player1 := none, player2 := none, result := .Pending,
          roundNumber := (mGet sys mr).roundNumber + 100 }).2)
      exact ⟨ht, hstep.trans hm⟩
  intro rounds
  induction rounds with
  | nil => intro sys; exact ⟨Eq.refl _, MPres.refl sys⟩
  | cons round rest ih =>
    intro sys
    unfold deLosersAllocs
    obtain ⟨ht1, hm1⟩ := hfold round sys
    obtain ⟨ht2, hm2⟩ := ih (round.foldl _ sys)
    exact ⟨by rw [ht2, ht1], hm1.trans hm2⟩

theorem shuffleGo_facts :
    ∀ (k : Nat) (l : List Nat) (sys : Sys),
      (shuffleGo k l sys).2.tournaments = sys.tournaments ∧
        (shuffleGo k l sys).2.matchH = sys.matchH := by
  intro k
  induction k with
  | zero => intro l sys; exact ⟨Eq.refl _, Eq.refl _⟩
  | succ k ih =>
    intro l sys
    unfold shuffleGo
    exact ih _ _

theorem generateBracket_facts (sys : Sys) (t : Tournament)
    (hmo : ∀ r ∈ t.«matches», MatchOk sys r) :
    ((generateBracket sys t).1.tournaments = sys.tournaments ∧
      MPres sys (generateBracket sys t).1) ∧
    ((generateBracket sys t).2.status = t.status ∧
      (generateBracket sys t).2.winner = t.winner ∧
      (generateBracket sys t).2.ttype = t.ttype) ∧
    ∀ r ∈ (generateBracket sys t).2.«matches», MatchOk (generateBracket sys t).1 r := by
  unfold generateBracket
  cases hty : t.ttype with
  | SingleElimination =>
    unfold generateSingleEliminationBracket
    have h := seRounds_facts (t.players.map some ++
        List.replicate (2 ^ clog2 (t.players.map some).length - (t.players.map some).length)
          none).length
      sys
      (t.players.map some ++
        List.replicate (2 ^ clog2 (t.players.map some).length - (t.players.map some).length)
          none)
      1 { t with rounds := [] } hmo
    exact ⟨h.1, ⟨h.2.1.1, h.2.1.2.1, by rw [h.2.1.2.2, hty]⟩, h.2.2⟩
  | DoubleElimination =>
    unfold generateDoubleEliminationBracket
    unfold generateSingleEliminationBracket
    set res := seRounds (t.players.map some ++
        List.replicate (2 ^ clog2 (t.players.map some).length - (t.players.map some).length)
          none).length
      sys (t.players.map some ++
        List.replicate (2 ^ clog2 (t.players.map some).length - (t.players.map some).length)
          none) 1 { t with rounds := [] } with hres
    have h := seRounds_facts (t.players.map some ++
        List.replicate (2 ^ clog2 (t.players.map some).length - (t.players.map some).length)
          none).length
      sys
      (t.players.map some ++
        List.replicate (2 ^ clog2 (t.players.map some).length - (t.players.map some).length)
          none)
      1 { t with rounds := [] } hmo
    rw [← hres] at h
    set sys1 := deLosersAllocs res.1 res.2.rounds with hsys1
    obtain ⟨hdt, hdm⟩ := deLosersAllocs_facts res.2.rounds res.1
    rw [← hsys1] at hdt hdm
    have hstep : MPres sys1 ((allocMatch ((generateId sys1).2)
        { id := (generateId sys1).1, player1 := none, player2 := none, result := .Pending,
          roundNumber := 999 }).2) :=
      MPres_allocMatch _ (Eq.refl _)
    refine ⟨⟨?_, ?_⟩, ⟨?_, ?_, ?_⟩, ?_⟩
    · show ((allocMatch ((generateId sys1).2) _).2).tournaments = sys.tournaments
      have : ((allocMatch ((generateId sys1).2)
          { id := (generateId sys1).1, player1 := none, player2 := none, result := .Pending,
            roundNumber := 999 }).2).tournaments = sys1.tournaments := rfl
      rw [this, hdt, h.1.1]
    · exact (h.1.2.trans hdm).trans hstep
    · show ({ res.2 with grandFinals := _ } : Tournament).status = t.status
      show res.2.status = t.status
      exact h.2.1.1
    · show res.2.winner = t.winner
      exact h.2.1.2.1
    · show res.2.ttype = TournamentType.DoubleElimination
      rw [h.2.1.2.2, hty]
    · intro r hr
      have hr' : r ∈ res.2.«matches» := hr
      exact (h.2.2 r hr').mono (hdm.trans hstep)
  | RoundRobin =>
    unfold generateRoundRobinBracket
    have hmp : MPres sys (rrPairs sys t.players).1 := by
      obtain ⟨l, hl⟩ := rrPairs_matchH t.players sys
      exact MPres_append hl
    refine ⟨⟨rrPairs_tournaments t.players sys, hmp⟩, ⟨Eq.refl _, Eq.refl _, hty⟩, ?_⟩
    intro r hr
    have hr' : r ∈ t.«matches» ++ (rrPairs sys t.players).2 := hr
    rcases List.mem_append.mp hr' with hr1 | hr2
    · exact (hmo r hr1).mono hmp
    · exact rrPairs_facts t.players sys r hr2
  | Swiss =>
    unfold generateSwissBracket
    set sh := shuffleArray t.players sys with hsh
    have hst : sh.2.tournaments = sys.tournaments :=
      (shuffleGo_facts (t.players.length - 1) t.players sys).1
    have hsm : sh.2.matchH = sys.matchH :=
      (shuffleGo_facts (t.players.length - 1) t.players sys).2
    have hmps : MPres sys sh.2 := MPres_of_matchH_eq hsm
    set res2 := pairMatches sh.2 (sh.1.map some) 1 with hres2
    have hmp2 : MPres sh.2 res2.1 := by
      obtain ⟨l, hl⟩ := pairMatches_matchH (sh.1.map some).length (sh.1.map some) 1 sh.2 le_rfl
      exact MPres_append hl
    refine ⟨⟨?_, hmps.trans hmp2⟩, ⟨Eq.refl _, Eq.refl _, hty⟩, ?_⟩
    · rw [show res2.1.tournaments = sh.2.tournaments from
        pairMatches_tournaments (sh.1.map some).length (sh.1.map some) 1 sh.2 le_rfl]
      exact hst
    · intro r hr
      have hr' : r ∈ t.«matches» ++ res2.2 := hr
      rcases List.mem_append.mp hr' with hr1 | hr2
      · exact (hmo r hr1).mono (hmps.trans hmp2)
      · exact pairMatches_facts (sh.1.map some).length (sh.1.map some) 1 sh.2 le_rfl r hr2

theorem cloneAll_cons (sys : Sys) (id : String) (rest : List String) (r0 : Nat)
    (hdb : dbFind sys id = some r0) :
    cloneAll sys (id :: rest) =
      cloneStep (allocPlayer sys (pGet sys r0)).1
        (cloneAll (allocPlayer sys (pGet sys r0)).2 rest) := by
  conv_lhs => unfold cloneAll
  rw [hdb]

theorem cloneAll_facts :
    ∀ (ids : List String) (sys sys2 : Sys) (refs : List Nat),
      cloneAll sys ids = .ok (sys2, refs) →
      sys2.tournaments = sys.tournaments ∧ sys2.matchH = sys.matchH := by
  intro ids
  induction ids with
  | nil =>
    intro sys sys2 refs h
    injection h with h1
    injection h1 with h2 h3
    subst h2
    exact ⟨Eq.refl _, Eq.refl _⟩
  | cons id rest ih =>
    intro sys sys2 refs h
    cases hdb : dbFind sys id with
    | none =>
      have herr : cloneAll sys (id :: rest) =
          Except.error ("Player " ++ id ++ " not found") := by
        unfold cloneAll
        rw [hdb]
      rw [herr] at h
      exact Except.noConfusion h
    | some r0 =>
      rw [cloneAll_cons sys id rest r0 hdb] at h
      cases hrec : cloneAll (allocPlayer sys (pGet sys r0)).2 rest with
      | error e =>
        rw [hrec] at h
        exact Except.noConfusion h
      | ok pr =>
        obtain ⟨s2, rs⟩ := pr
        rw [hrec] at h
        injection h with h1
        injection h1 with h2 h3
        subst h2
        exact ih (allocPlayer sys (pGet sys r0)).2 s2 rs hrec

theorem createTournament_ok {sys : Sys} {name : String} {ttype : TournamentType}
    {ids : List String} {sys' : Sys} {tid : String}
    (h : createTournament sys name ttype ids = .ok (sys', tid)) :
    ∃ tNew, sys'.tournaments = sys.tournaments ++ [(tid, tNew)] ∧ MPres sys sys' ∧
      tNew.status = .Setup ∧ tNew.winner = none ∧
      ∀ r ∈ tNew.«matches», MatchOk sys' r := by
  unfold createTournament at h
  split_ifs at h with hguard
  cases hclone : cloneAll sys ids with
  | error e =>
    rw [hclone] at h
    exact Except.noConfusion h
  | ok pr =>
    obtain ⟨sys1, refs⟩ := pr
    rw [hclone] at h
    obtain ⟨hct, hcm⟩ := cloneAll_facts ids sys sys1 refs hclone
    injection h with h1
    injection h1 with hs htid
    subst hs
    subst htid
    set t0 : Tournament :=
      { id := (generateId sys1).1, name := name, ttype := ttype, status := .Setup,
        players := refs, «matches» := [], rounds := [], grandFinals := none,
        currentRound := 0, totalRounds := calculateTotalRounds ttype refs.length,
        winner := none } with ht0
    have hbr := generateBracket_facts ((generateId sys1).2) t0 (by intro r hr; cases hr)
    refine ⟨(generateBracket ((generateId sys1).2) t0).2, ?_, ?_, ?_, ?_, ?_⟩
    · have h1 : (generateBracket ((generateId sys1).2) t0).1.tournaments = sys.tournaments := by
        rw [hbr.1.1]
        exact hct
      show (generateBracket ((generateId sys1).2) t0).1.tournaments ++
          [((generateId sys1).1, (generateBracket ((generateId sys1).2) t0).2)] =
        sys.tournaments ++ [((generateId sys1).1, (generateBracket ((generateId sys1).2) t0).2)]
      rw [h1]
    · refine MPres.trans ?_ hbr.1.2
      exact MPres_of_matchH_eq (show ((generateId sys1).2).matchH = sys.matchH from hcm)
    · rw [hbr.2.1.1]
    · rw [hbr.2.1.2.1]
    · intro r hr
      exact (hbr.2.2 r hr).mono (MPres_of_matchH_eq (Eq.refl _))

theorem mGet_mSet_ne (sys : Sys) (i r : Nat) (m : MatchObj) (h : ¬ r = i) :
    mGet (mSet sys i m) r = mGet sys r := by
  show (sys.matchH.set i m).getD r default = sys.matchH.getD r default
  rw [List.getD_eq_getElem?_getD, List.getElem?_set_ne (by omega),
    ← List.getD_eq_getElem?_getD]

theorem MPres_mSet_result (sys : Sys) (mr : Nat) (result : MatchResult) :
    MPres sys (mSet sys mr { mGet sys mr with result := result }) := by
  constructor
  · show sys.matchH.length ≤ (sys.matchH.set mr _).length
    rw [List.length_set]
  · intro r hr
    by_cases hrm : r = mr
    · subst hrm
      have hg : mGet (mSet sys r { mGet sys r with result := result }) r =
          { mGet sys r with result := result } := getD_mSet_self _ hr
      rw [hg]
      exact ⟨rfl, rfl⟩
    · rw [mGet_mSet_ne sys mr r _ hrm]
      exact ⟨rfl, rfl⟩

theorem startTournament_ok {sys : Sys} {tid : String} {t : Tournament} {sys' : Sys}
    (ht : tFind sys tid = some t) (h : startTournament sys tid = .ok sys') :
    sys' = tSet sys tid { t with status := .InProgress, currentRound := 1 } := by
  unfold startTournament at h
  rw [ht] at h
  injection h with h1
  exact h1.symm

theorem mem_tSet {sys : Sys} {tid : String} {t1 : Tournament} {e : String × Tournament}
    (h : e ∈ (tSet sys tid t1).tournaments) :
    e ∈ sys.tournaments ∨ ∃ e0 ∈ sys.tournaments, e = (e0.1, t1) := by
  unfold tSet at h
  rcases List.mem_map.mp h with ⟨e0, he0, heq⟩
  by_cases hc : e0.1 == tid
  · right
    refine ⟨e0, he0, ?_⟩
    rw [← heq, if_pos hc]
  · left
    rw [← heq, if_neg hc]
    exact he0

theorem complete_find_some {sys : Sys} {t : Tournament}
    (h : isTournamentComplete sys t = true) :
    ∃ fr, t.«matches».find? (fun r =>
        (mGet sys r).roundNumber == t.totalRounds && (mGet sys r).result != .Pending) =
          some fr ∧
      fr ∈ t.«matches» := by
  simp only [isTournamentComplete] at h
  by_cases h0 :
      (t.«matches».filter (fun r => (mGet sys r).roundNumber == t.totalRounds)).length = 0
  · rw [if_pos h0] at h
    exact absurd h (by decide)
  rw [if_neg h0] at h
  have hne : t.«matches».filter (fun r => (mGet sys r).roundNumber == t.totalRounds) ≠ [] := by
    intro hnil
    rw [hnil] at h0
    exact h0 rfl
  obtain ⟨r0, hr0⟩ := List.exists_mem_of_ne_nil _ hne
  have hmem : r0 ∈ t.«matches» := (List.mem_filter.mp hr0).1
  have hround : ((mGet sys r0).roundNumber == t.totalRounds) = true := (List.mem_filter.mp hr0).2
  have hres : ((mGet sys r0).result != .Pending) = true := List.all_eq_true.mp h r0 hr0
  have hsome : (t.«matches».find? (fun r =>
      (mGet sys r).roundNumber == t.totalRounds && (mGet sys r).result != .Pending)).isSome :=
    List.find?_isSome.mpr ⟨r0, hmem, by simp [hround, hres]⟩
  obtain ⟨fr, hfr⟩ := Option.isSome_iff_exists.mp hsome
  exact ⟨fr, hfr, List.mem_of_find?_eq_some hfr⟩

theorem completeTournament_status (sys : Sys) (t : Tournament) :
    (completeTournament sys t).status = .Completed := by
  unfold completeTournament
  split_ifs with hty
  · cases hfind : t.«matches».find? (fun r =>
        (mGet sys r).roundNumber == t.totalRounds && (mGet sys r).result != .Pending) with
    | none => rfl
    | some fr => rfl
  · rfl

theorem completeTournament_ttype (sys : Sys) (t : Tournament) :
    (completeTournament sys t).ttype = t.ttype := by
  unfold completeTournament
  split_ifs with hty
  · cases hfind : t.«matches».find? (fun r =>
        (mGet sys r).roundNumber == t.totalRounds && (mGet sys r).result != .Pending) with
    | none => rfl
    | some fr => rfl
  · rfl

theorem completeTournament_matches (sys : Sys) (t : Tournament) :
    (completeTournament sys t).«matches» = t.«matches» := by
  unfold completeTournament
  split_ifs with hty
  · cases hfind : t.«matches».find? (fun r =>
        (mGet sys r).roundNumber == t.totalRounds && (mGet sys r).result != .Pending) with
    | none => rfl
    | some fr => rfl
  · rfl

theorem completeTournament_winner_se {sys : Sys} {t : Tournament} {fr : Nat}
    (hty : t.ttype = .SingleElimination)
    (hfind : t.«matches».find? (fun r =>
        (mGet sys r).roundNumber == t.totalRounds && (mGet sys r).result != .Pending) =
          some fr)
    (hp1 : (mGet sys fr).player1 ≠ none) (hp2 : (mGet sys fr).player2 ≠ none) :
    (completeTournament sys t).winner ≠ none := by
  unfold completeTournament
  rw [if_pos hty, hfind]
  show (if (mGet sys fr).result = .Player1 then (mGet sys fr).player1
        else (mGet sys fr).player2) ≠ none
  split_ifs with hres
  · exact hp1
  · exact hp2

theorem pairWinners_branch_facts (sys : Sys) (W : List (Option Nat)) (rn : Nat)
    (hws : ∀ w ∈ W, w ≠ none) :
    MPres sys (pairWinners sys W rn).1 ∧
    ∀ r ∈ (pairWinners sys W rn).2, MatchOk (pairWinners sys W rn).1 r := by
  constructor
  · obtain ⟨l, hl⟩ := pairWinners_matchH W.length W rn sys le_rfl
    exact MPres_append hl
  · exact pairWinners_facts W.length W rn sys le_rfl hws

theorem advanceTournament_facts (sys : Sys) (t : Tournament)
    (hmo : ∀ r ∈ t.«matches», MatchOk sys r) :
    ((advanceTournament sys t).2.status = t.status ∧
      (advanceTournament sys t).2.winner = t.winner ∧
      (advanceTournament sys t).2.ttype = t.ttype) ∧
    MPres sys (advanceTournament sys t).1 ∧
    ∀ r ∈ (advanceTournament sys t).2.«matches», MatchOk (advanceTournament sys t).1 r := by
  unfold advanceTournament
  by_cases hty : t.ttype = .SingleElimination
  · rw [if_pos hty]
    simp only [advanceSingleElimination]
    split_ifs with h1 h2 h3
    · exact ⟨⟨rfl, rfl, rfl⟩, MPres.refl sys, hmo⟩
    · exact ⟨⟨rfl, rfl, rfl⟩, MPres.refl sys, hmo⟩
    · have hws : ∀ w ∈ (t.«matches».filter (fun r =>
          (mGet sys r).roundNumber == t.currentRound && (mGet sys r).result != .Pending)).map
            (fun r =>
              let m := mGet sys r
              match m.result with
              | .Player1 => m.player1
              | .Player2 => m.player2
              | _ => m.player1), w ≠ none := by
        intro w hw
        rcases List.mem_map.mp hw with ⟨r, hr, rfl⟩
        have hrt : r ∈ t.«matches» := (List.mem_filter.mp hr).1
        obtain ⟨-, hp1, hp2⟩ := hmo r hrt
        cases hres : (mGet sys r).result <;> simp only [hres] <;>
          first
          | exact hp1
          | exact hp2
      refine ⟨⟨rfl, rfl, rfl⟩, ?_, ?_⟩
      · exact (pairWinners_branch_facts sys _ _ hws).1
      · intro r hr
        rcases List.mem_append.mp hr with hr1 | hr2
        · exact (hmo r hr1).mono (pairWinners_branch_facts sys _ _ hws).1
        · exact (pairWinners_branch_facts sys _ _ hws).2 r hr2
    · exact ⟨⟨rfl, rfl, rfl⟩, MPres.refl sys, hmo⟩
  · rw [if_neg hty]
    exact ⟨⟨rfl, rfl, rfl⟩, MPres.refl sys, hmo⟩

theorem report_preserves {sys sys' : Sys} {tid mid : String} {result : MatchResult}
    (hinv : SysInv sys) (h : reportMatchResult sys tid mid result = .ok sys') :
    SysInv sys' := by
  cases ht : tFind sys tid with
  | none =>
    have herr : reportMatchResult sys tid mid result = .error "Tournament not found" := by
      unfold reportMatchResult
      rw [ht]
    rw [herr] at h
    exact Except.noConfusion h
  | some t =>
    cases hm : t.«matches».find? (fun r => (mGet sys r).id == mid) with
    | none =>
      have herr : reportMatchResult sys tid mid result = .error "Match not found" := by
        simp only [reportMatchResult, ht, hm]
      rw [herr] at h
      exact Except.noConfusion h
    | some mr =>
      simp only [reportMatchResult, ht, hm] at h
      obtain ⟨et, het, het2⟩ := tFind_mem ht
      obtain ⟨hwt, hmt0⟩ := hinv et het
      rw [het2] at hwt hmt0
      have hmp3 : MPres sys (updateELORatings (updatePlayerStats
          (mSet sys mr { mGet sys mr with result := result })
          { mGet sys mr with result := result })
          { mGet sys mr with result := result }) :=
        ((MPres_mSet_result sys mr result).trans
          (MPres_of_matchH_eq (updatePlayerStats_matchH
            (mSet sys mr { mGet sys mr with result := result })
            { mGet sys mr with result := result }))).trans
          (MPres_of_matchH_eq (updateELORatings_matchH
            (updatePlayerStats (mSet sys mr { mGet sys mr with result := result })
              { mGet sys mr with result := result })
            { mGet sys mr with result := result }))
      have hmt3 : ∀ r ∈ t.«matches», MatchOk (updateELORatings (updatePlayerStats
          (mSet sys mr { mGet sys mr with result := result })
          { mGet sys mr with result := result })
          { mGet sys mr with result := result }) r :=
        fun r hr => (hmt0 r hr).mono hmp3
      have htour : (updateELORatings (updatePlayerStats
          (mSet sys mr { mGet sys mr with result := result })
          { mGet sys mr with result := result })
          { mGet sys mr with result := result }).tournaments = sys.tournaments := by
        rw [updateELORatings_tournaments, updatePlayerStats_tournaments]
        rfl
      split at h
      case isTrue hcomp =>
        injection h with h1
        subst h1
        intro e he
        rcases mem_tSet he with h1 | ⟨e0, he0, heq⟩
        · rw [htour] at h1
          obtain ⟨hw, hm0⟩ := hinv e h1
          exact ⟨hw, fun r hr =>
            (hm0 r hr).mono (hmp3.trans (MPres_of_matchH_eq (tSet_matchH _ _ _)))⟩
        · subst heq
          constructor
          · constructor
            · intro _
              exact completeTournament_status _ _
            · intro htySE _
              rw [completeTournament_ttype] at htySE
              obtain ⟨fr, hfind, hfrmem⟩ := complete_find_some hcomp
              have hfrok := hmt3 fr hfrmem
              exact completeTournament_winner_se htySE hfind hfrok.2.1 hfrok.2.2
          · intro r hr
            rw [completeTournament_matches] at hr
            exact (hmt3 r hr).mono (MPres_of_matchH_eq (tSet_matchH _ _ _))
      case isFalse hcomp =>
        injection h with h1
        subst h1
        have hadv := advanceTournament_facts _ t hmt3
        intro e he
        rcases mem_tSet he with h1 | ⟨e0, he0, heq⟩
        · rw [advanceTournament_tournaments, htour] at h1
          obtain ⟨hw, hm0⟩ := hinv e h1
          exact ⟨hw, fun r hr =>
            (hm0 r hr).mono ((hmp3.trans hadv.2.1).trans
              (MPres_of_matchH_eq (tSet_matchH _ _ _)))⟩
        · subst heq
          constructor
          · constructor
            · intro hwne
              rw [hadv.1.2.1] at hwne
              rw [hadv.1.1]
              exact hwt.1 hwne
            · intro htySE hcomp2
              rw [hadv.1.2.2] at htySE
              rw [hadv.1.1] at hcomp2
              rw [hadv.1.2.1]
              exact hwt.2 htySE hcomp2
          · intro r hr
            exact (hadv.2.2 r hr).mono (MPres_of_matchH_eq (tSet_matchH _ _ _))

theorem sysInv_init (rand : List Nat) : SysInv (initialSys rand) := by
  intro e he
  exact absurd he (List.not_mem_nil e)

theorem step_preserves {s1 s2 : Sys} (hinv : SysInv s1) (hstep : Step s1 s2) : SysInv s2 := by
  cases hstep with
  | addHuman name =>
    intro e he
    have he' : e ∈ s1.tournaments := he
    obtain ⟨hw, hm⟩ := hinv e he'
    exact ⟨hw, fun r hr => (hm r hr).mono (MPres_of_matchH_eq (Eq.refl _))⟩
  | create name ttype ids sys' tid hok =>
    obtain ⟨tNew, hts, hmp, hst, hwin, hmo⟩ := createTournament_ok hok
    intro e he
    rw [hts] at he
    rcases List.mem_append.mp he with h1 | h2
    · obtain ⟨hw, hm⟩ := hinv e h1
      exact ⟨hw, fun r hr => (hm r hr).mono hmp⟩
    · have he2 : e = (tid, tNew) := by simpa using h2
      subst he2
      refine ⟨⟨?_, ?_⟩, hmo⟩
      · intro hwne
        exact absurd hwin hwne
      · intro _ hcomp
        rw [hst] at hcomp
        exact TournamentStatus.noConfusion hcomp
  | start tid t sys' ht hsetup hok =>
    have hshape := startTournament_ok ht hok
    subst hshape
    obtain ⟨et, het, het2⟩ := tFind_mem ht
    obtain ⟨hwt, hmt⟩ := hinv et het
    rw [het2] at hwt hmt
    intro e he
    rcases mem_tSet he with h1 | ⟨e0, he0, heq⟩
    · obtain ⟨hw, hm⟩ := hinv e h1
      exact ⟨hw, fun r hr => (hm r hr).mono (MPres_of_matchH_eq (tSet_matchH _ _ _))⟩
    · subst heq
      refine ⟨⟨?_, ?_⟩, ?_⟩
      · intro hwne
        have hc := hwt.1 hwne
        rw [hsetup] at hc
        exact TournamentStatus.noConfusion hc
      · intro _ hcomp
        exact TournamentStatus.noConfusion hcomp
      · intro r hr
        exact (hmt r hr).mono (MPres_of_matchH_eq (tSet_matchH _ _ _))
  | report tid mid result sys' hok =>
    exact report_preserves hinv hok

theorem sysInv_of_reachable {sys : Sys} (h : Reachable sys) : SysInv sys := by
  induction h with
  | init rand => exact sysInv_init rand
  | step h1 hstep ih => exact step_preserves ih hstep

/-- C4 (amended): the `winner` field is only assigned by
`completeTournament`, so in every orchestrator state reachable by
adding players, creating tournaments, starting tournaments that are
still in `Setup`, and reporting match results, a set `winner` implies
status `Completed`; and for single-elimination tournaments a `Completed`
status conversely guarantees a set `winner`. (For the other formats the
converse fails: `completeTournament` assigns no winner for them.) -/
theorem claim_C4 (sys : Sys) (h : Reachable sys) :
    ∀ e ∈ sys.tournaments,
      (e.2.winner ≠ none → e.2.status = .Completed) ∧
      (e.2.ttype = .SingleElimination → e.2.status = .Completed → e.2.winner ≠ none) := by
  intro e he
  exact ⟨((sysInv_of_reachable h) e he).1.1, ((sysInv_of_reachable h) e he).1.2⟩

/-- C4 witness: the state right after creating a two-player round-robin
tournament is reachable, and the theorem applies to it. -/
theorem claim_C4_witness :
    Reachable sysW ∧
    ∀ e ∈ sysW.tournaments,
      (e.2.winner ≠ none → e.2.status = .Completed) ∧
      (e.2.ttype = .SingleElimination → e.2.status = .Completed → e.2.winner ≠ none) :=
  have hre : Reachable sysW :=
    Reachable.step (Reachable.init [])
      (Step.create (initialSys []) "T" .RoundRobin ["ai_easy", "ai_medium"] sysW "id0" rfl)
  ⟨hre, claim_C4 sysW hre⟩

end TicTacToe

